import Mathlib

/-!
# Verification of the amplify-cli transform pipeline core

Shallow embedding of the `@key` transformer
(`packages/graphql-key-transformer/src/KeyTransformer.ts`), the cross-stack
template-reference walker (`getTemplateReferences` / `walk` /
`mergeReferenceMaps`), and the read-operation authorization gate of the auth
resource factory (`throwIfUnauthorizedForReadOperations`), together with
theorems settling the specification claims about them.

Machine conventions: TypeScript exceptions are modelled with `Except` when the
throwing computation happens before any context mutation, and with an
`Option TransformError × TransformerContext` result when a phase can mutate
the context before a later step throws (the returned context is then the state
at the moment of the throw).  JavaScript `undefined` property reads that would
crash with a `TypeError` are modelled by the `fieldAccessError` error value.
-/

/-- GraphQL type reference: scalar/named type, non-null wrapper, or list
wrapper (mirrors the `TypeNode` shape of the `graphql` package used by the
source). -/
inductive TypeNode where
  | named (name : String)
  | nonNull (ofType : TypeNode)
  | listType (ofType : TypeNode)
deriving DecidableEq

/-- Modelled from the spec: `getBaseType` of graphql-transformer-common (not
under src/) unwraps non-null and list wrappers down to the named type. -/
def getBaseType : TypeNode → String
  | .named n => n
  | .nonNull t => getBaseType t
  | .listType t => getBaseType t

/-- Modelled from the spec: `isNonNullType` of the graphql package (not under
src/) — true exactly for a top-level non-null wrapper. -/
def isNonNullType : TypeNode → Bool
  | .nonNull _ => true
  | _ => false

/-- An input value (argument) definition: name and type. -/
structure InputValueDefinition where
  name : String
  type : TypeNode
deriving DecidableEq

/-- Modelled from the spec: `makeNamedType` of graphql-transformer-common. -/
def makeNamedType (name : String) : TypeNode := .named name

/-- Modelled from the spec: `makeNonNullType` of graphql-transformer-common. -/
def makeNonNullType (t : TypeNode) : TypeNode := .nonNull t

/-- Modelled from the spec: `makeInputValueDefinition` of
graphql-transformer-common. -/
def makeInputValueDefinition (name : String) (t : TypeNode) : InputValueDefinition :=
  { name := name, type := t }

/-- A field definition of an object type: name, type, and arguments. -/
structure FieldDefinition where
  name : String
  type : TypeNode
  arguments : List InputValueDefinition := []
deriving DecidableEq

/-- The arguments of a `@key` directive (`KeyArguments` in the source).
`name` and `queryField` are optional; JavaScript truthiness of these string
arguments (absent or empty string is falsy) is modelled by `strTruthy`. -/
structure KeyArguments where
  name : Option String := none
  fields : List String := []
  queryField : Option String := none
deriving DecidableEq

/-- JavaScript truthiness of an optional string argument:
`Boolean(undefined) = false`, `Boolean("") = false`. -/
def strTruthy : Option String → Bool
  | none => false
  | some s => !(s == "")

/-- A directive attached to an object type.  Only `@key` directives carry
arguments the transformer reads; `getDirectiveArguments` projects them. -/
structure Directive where
  name : String
  args : KeyArguments := {}
deriving DecidableEq

/-- `getDirectiveArguments` of graphql-transformer-core (the directive's
argument record). -/
def getDirectiveArguments (d : Directive) : KeyArguments := d.args

/-- An object type definition node: name, fields, attached directives. -/
structure ObjectTypeDefinition where
  name : String
  fields : List FieldDefinition
  directives : List Directive := []
deriving DecidableEq

/-- A DynamoDB key schema entry `{ AttributeName, KeyType }` with
`KeyType ∈ {HASH, RANGE}`. -/
structure KeySchemaEntry where
  AttributeName : String
  KeyType : String
deriving DecidableEq

/-- A DynamoDB attribute definition `{ AttributeName, AttributeType }`. -/
structure AttributeDefinition where
  AttributeName : String
  AttributeType : String
deriving DecidableEq

/-- A secondary index (GSI or LSI) as the transformer builds it: index name
(the directive's `name` argument), key schema, and an `ALL` projection.  The
provisioned-throughput intrinsic attached to GSIs does not participate in any
claim and is not modelled. -/
structure SecondaryIndex where
  IndexName : Option String
  KeySchema : List KeySchemaEntry
deriving DecidableEq

/-- The table resource properties the `@key` transformer reads and writes. -/
structure TableProperties where
  KeySchema : List KeySchemaEntry
  AttributeDefinitions : List AttributeDefinition
  GlobalSecondaryIndexes : Option (List SecondaryIndex) := none
  LocalSecondaryIndexes : Option (List SecondaryIndex) := none
deriving DecidableEq

/-- Errors surfaced by the transformer.  `invalidDirective` is the source's
`InvalidDirectiveError`; `fieldAccessError` models the JavaScript `TypeError`
raised by reading a property (like `.type`) of `undefined`;
`unknownScalarType` models the plain `Error` thrown by
`attributeTypeFromScalar` on a type that is not a known scalar. -/
inductive TransformError where
  | invalidDirective (msg : String)
  | fieldAccessError
  | unknownScalarType (name : String)
deriving DecidableEq

/-- Modelled from the spec: `attributeTypeFromScalar` of
graphql-transformer-common (not under src/) maps a scalar base type to its
DynamoDB attribute type — STRING for String/ID, NUMBER for Int/Float — and
throws for anything else.  Boolean maps to a non-key marker type so that the
validator's `S`/`N`/`B` check is reachable. -/
def attributeTypeFromScalar (t : TypeNode) : Except TransformError String :=
  match getBaseType t with
  | "String" => .ok "S"
  | "ID" => .ok "S"
  | "Int" => .ok "N"
  | "Float" => .ok "N"
  | "Boolean" => .ok "BOOL"
  | other => .error (.unknownScalarType other)

/-- `condenseRangeKey` — join composite range key fields with `#`. -/
def condenseRangeKey (fields : List String) : String :=
  String.intercalate "#" fields

/-- `keySchema` — derive a table/index key schema from `@key` arguments.
With an empty `fields` list the source reads `args.fields[0]`, which is
JavaScript `undefined`; every caller first computes `attributeDefinitions`,
which throws in that case, so the `headD ""` default is never observable. -/
def keySchema (args : KeyArguments) : List KeySchemaEntry :=
  if args.fields.length > 1 then
    [ { AttributeName := args.fields.headD "", KeyType := "HASH" },
      { AttributeName := condenseRangeKey (args.fields.drop 1), KeyType := "RANGE" } ]
  else
    [ { AttributeName := args.fields.headD "", KeyType := "HASH" } ]

/-- An input object type definition (create/update/delete inputs, key
condition inputs). -/
structure InputObjectType where
  name : String
  fields : List InputValueDefinition
deriving DecidableEq

/-- A named schema type registered in the transformer context, as far as the
`@key` transformer inspects it: enum definitions (key fields of enum type are
treated as strings), input object definitions, and anything else by name. -/
inductive NamedTypeEntry where
  | enumDef (name : String)
  | inputDef (d : InputObjectType)
  | objectDef (name : String)
deriving DecidableEq

/-- The registered name of a context type entry. -/
def NamedTypeEntry.typeName : NamedTypeEntry → String
  | .enumDef n => n
  | .inputDef d => d.name
  | .objectDef n => n

/-- An AppSync resolver resource, as far as the transformer reads and writes
it: the query field it backs and its request mapping template text. -/
structure Resolver where
  fieldName : String
  requestMappingTemplate : String
  responseMappingTemplate : String := ""
deriving DecidableEq

/-- The shared compilation context, restricted to the state the `@key`
transformer touches for the one object type being processed.  The source
addresses resources through `ctx.getResource` with the standard logical ids
(`<Type>Table`, `Get<Type>Resolver`, …); since all ids are derived from the
single type's name, the corresponding resources are modelled as dedicated
fields. -/
structure TransformerContext where
  types : List NamedTypeEntry := []
  queryType : ObjectTypeDefinition
  tableResource : Option TableProperties := none
  getResolver : Option Resolver := none
  listResolver : Option Resolver := none
  createResolver : Option Resolver := none
  updateResolver : Option Resolver := none
  deleteResolver : Option Resolver := none
  queryFieldResolvers : List (String × Resolver) := []
  stackMappings : List (String × String) := []
deriving DecidableEq

/-- `ctx.getType(name)` — look a schema type up by name. -/
def TransformerContext.getType (ctx : TransformerContext) (name : String) :
    Option NamedTypeEntry :=
  ctx.types.find? (fun t => t.typeName == name)

/-- `ctx.addInput` — register an input type. -/
def TransformerContext.addInput (ctx : TransformerContext) (i : InputObjectType) :
    TransformerContext :=
  { ctx with types := ctx.types ++ [.inputDef i] }

/-- `ctx.putType` for input object types — replace a registered type by
name. -/
def TransformerContext.putInputType (ctx : TransformerContext) (i : InputObjectType) :
    TransformerContext :=
  { ctx with types := ctx.types.map (fun t => if t.typeName == i.name then .inputDef i else t) }

/-- `attributeTypeFromType` — enum types are treated as STRING, everything
else defers to the scalar mapping. -/
def attributeTypeFromType (t : TypeNode) (ctx : TransformerContext) :
    Except TransformError String :=
  let baseTypeName := getBaseType t
  match ctx.getType baseTypeName with
  | some (.enumDef _) => .ok "S"
  | _ => attributeTypeFromScalar t

/-- Look a field up in an object type definition (the source builds a
`Map` over `definition.fields` for this). -/
def findField (definition : ObjectTypeDefinition) (name : String) :
    Option FieldDefinition :=
  definition.fields.find? (fun f => f.name == name)

/-- `attributeDefinitions` — derive the attribute definitions for a `@key`
directive.  A failing field lookup models the JavaScript `TypeError` from
`fieldMap.get(name).type` when the name is absent (in particular
`args.fields[0]` is `undefined` for a zero-length field list). -/
def attributeDefinitions (args : KeyArguments) (definition : ObjectTypeDefinition)
    (ctx : TransformerContext) : Except TransformError (List AttributeDefinition) :=
  if args.fields.length > 2 then
    let hashName := args.fields.headD ""
    let condensedSortKey := condenseRangeKey (args.fields.drop 1)
    match findField definition hashName with
    | none => .error .fieldAccessError
    | some f =>
      match attributeTypeFromType f.type ctx with
      | .error e => .error e
      | .ok hashType =>
        .ok [ { AttributeName := hashName, AttributeType := hashType },
              { AttributeName := condensedSortKey, AttributeType := "S" } ]
  else if args.fields.length == 2 then
    let hashName := args.fields.getD 0 ""
    let sortName := args.fields.getD 1 ""
    match findField definition hashName with
    | none => .error .fieldAccessError
    | some hf =>
      match attributeTypeFromType hf.type ctx with
      | .error e => .error e
      | .ok hashType =>
        match findField definition sortName with
        | none => .error .fieldAccessError
        | some sf =>
          match attributeTypeFromType sf.type ctx with
          | .error e => .error e
          | .ok sortType =>
            .ok [ { AttributeName := hashName, AttributeType := hashType },
                  { AttributeName := sortName, AttributeType := sortType } ]
  else
    match args.fields.head? with
    | none => .error .fieldAccessError
    | some fieldName =>
      match findField definition fieldName with
      | none => .error .fieldAccessError
      | some f =>
        match attributeTypeFromType f.type ctx with
        | .error e => .error e
        | .ok t => .ok [ { AttributeName := fieldName, AttributeType := t } ]

/-- `append` — append to a possibly-undefined list. -/
def appendList {α : Type} (maybeList : Option (List α)) (item : α) : List α :=
  match maybeList with
  | some l => l ++ [item]
  | none => [item]

/-- `getPrimaryKey` — the first `@key` directive on the type whose `name`
argument is falsy. -/
def getPrimaryKey (obj : ObjectTypeDefinition) : Option Directive :=
  obj.directives.find? (fun d => d.name == "key" && !(strTruthy (getDirectiveArguments d).name))

/-- `isPrimaryKey` — a directive with a falsy `name` argument specifies the
primary key. -/
def isPrimaryKey (directive : Directive) : Bool :=
  !(strTruthy (getDirectiveArguments directive).name)

/-- The directive at position `d` of the type's directive list.  The source
identifies the directive being processed by object identity
(`otherDirective !== directive`); positions play that role here. -/
def directiveAt (definition : ObjectTypeDefinition) (d : Nat) : Directive :=
  definition.directives.getD d { name := "key" }

/-- The field-by-field part of `validate`: every `@key` field must exist, be
non-null, and map to a DynamoDB `S`/`N`/`B` key type.  The source computes
`attributeTypeFromType` (which can throw for unknown scalars) before the
nullability check, so that order is preserved. -/
def validateKeyFields (definition : ObjectTypeDefinition) (ctx : TransformerContext) :
    List String → Except TransformError Unit
  | [] => .ok ()
  | fieldName :: rest =>
    match findField definition fieldName with
    | none =>
      .error (.invalidDirective ("You cannot specify a non-existant field " ++ fieldName ++
        " in @key on type " ++ definition.name ++ "."))
    | some existingField =>
      match attributeTypeFromType existingField.type ctx with
      | .error e => .error e
      | .ok ddbKeyType =>
      if !(isNonNullType existingField.type) then
        .error (.invalidDirective ("The primary @key on type " ++ definition.name ++
          " must reference non-null fields."))
      else if ddbKeyType != "S" && ddbKeyType != "N" && ddbKeyType != "B" then
        .error (.invalidDirective ("The primary @key on type " ++ definition.name ++
          " cannot reference non-scalar field " ++ fieldName ++ "."))
      else validateKeyFields definition ctx rest

/-- `validate` — semantic validation of a `@key` directive occurrence:
at most one primary `@key`, no duplicate names, no `queryField` on the
primary key, and valid key fields. -/
def validate (definition : ObjectTypeDefinition) (d : Nat) (ctx : TransformerContext) :
    Except TransformError Unit :=
  let directiveArgs := getDirectiveArguments (directiveAt definition d)
  let dup : Option TransformError :=
    if !(strTruthy directiveArgs.name) then
      if definition.directives.enum.any (fun od =>
          od.2.name == "key" && od.1 != d && !(strTruthy (getDirectiveArguments od.2).name)) then
        some (.invalidDirective ("You may only supply one primary @key on type " ++
          definition.name ++ "."))
      else if strTruthy directiveArgs.queryField then
        some (.invalidDirective ("You cannot pass queryField to the primary @key on type " ++
          definition.name ++ "."))
      else none
    else
      if definition.directives.enum.any (fun od =>
          od.2.name == "key" && od.1 != d &&
          (getDirectiveArguments od.2).name == directiveArgs.name) then
        some (.invalidDirective ("You may only supply one @key with the name " ++
          (directiveArgs.name.getD "") ++ " on type " ++ definition.name ++ "."))
      else none
  match dup with
  | some e => .error e
  | none => validateKeyFields definition ctx directiveArgs.fields

/-- The first loop of `replacePrimaryKey`: remove from the attribute
definitions (and from the name set carried alongside them) every attribute
named in the existing primary key schema. -/
def pruneOldPrimaryKey (keys : List KeySchemaEntry)
    (state : List AttributeDefinition × List String) :
    List AttributeDefinition × List String :=
  keys.foldl (fun acc existingKey =>
    if acc.2.contains existingKey.AttributeName then
      (acc.1.filter (fun ad => ad.AttributeName != existingKey.AttributeName),
       acc.2.filter (fun n => n != existingKey.AttributeName))
    else acc) state

/-- The push loop shared by `replacePrimaryKey` and `appendSecondaryIndex`:
append every derived attribute definition whose name is not in the (fixed)
name set. -/
def pushNewAttributes (attrDefs : List AttributeDefinition)
    (defs : List AttributeDefinition) (names : List String) : List AttributeDefinition :=
  attrDefs.foldl (fun ds attr =>
    if names.contains attr.AttributeName then ds else ds ++ [attr]) defs

/-- `replacePrimaryKey` — replace the table's primary key schema with the one
derived from a primary `@key` directive.  Attribute definitions named in the
old primary key schema are removed; the newly derived definitions are then
appended unless an entry with the same name survived the pruning. -/
def replacePrimaryKey (definition : ObjectTypeDefinition) (args : KeyArguments)
    (ctx : TransformerContext) : Except TransformError TransformerContext :=
  let ks := keySchema args
  match attributeDefinitions args definition ctx with
  | .error e => .error e
  | .ok attrDefs =>
  match ctx.tableResource with
  | none =>
    .error (.invalidDirective
      "The @key directive may only be added to object definitions annotated with @model.")
  | some tableResource =>
    let pruned := pruneOldPrimaryKey tableResource.KeySchema
      (tableResource.AttributeDefinitions,
       tableResource.AttributeDefinitions.map (fun ad => ad.AttributeName))
    let finalDefs := pushNewAttributes attrDefs pruned.1 pruned.2
    let newTable := { tableResource with KeySchema := ks, AttributeDefinitions := finalDefs }
    .ok { ctx with tableResource := some newTable }

/-- `appendSecondaryIndex` — add an LSI or GSI for a named `@key` directive.
The partition key name used for the LSI/GSI classification comes from the
type's statically declared primary `@key` directive ('id' when there is
none); reading `fields[0]` of a primary directive with an empty field list
yields JavaScript `undefined`, modelled as `""`. -/
def appendSecondaryIndex (definition : ObjectTypeDefinition) (args : KeyArguments)
    (ctx : TransformerContext) : Except TransformError TransformerContext :=
  let ks := keySchema args
  match attributeDefinitions args definition ctx with
  | .error e => .error e
  | .ok attrDefs =>
  let primaryKeyDirective := getPrimaryKey definition
  let primaryPartitionKeyName :=
    match primaryKeyDirective with
    | some dir => (getDirectiveArguments dir).fields.headD ""
    | none => "id"
  match ctx.tableResource with
  | none =>
    .error (.invalidDirective
      "The @key directive may only be added to object definitions annotated with @model.")
  | some tableResource =>
    let baseIndex : SecondaryIndex := { IndexName := args.name, KeySchema := ks }
    let table1 :=
      if primaryPartitionKeyName == (ks.headD ⟨"", ""⟩).AttributeName then
        { tableResource with
          LocalSecondaryIndexes := some (appendList tableResource.LocalSecondaryIndexes baseIndex) }
      else
        { tableResource with
          GlobalSecondaryIndexes := some (appendList tableResource.GlobalSecondaryIndexes baseIndex) }
    let finalDefs := pushNewAttributes attrDefs table1.AttributeDefinitions
      (table1.AttributeDefinitions.map (fun ad => ad.AttributeName))
    let newTable := { table1 with AttributeDefinitions := finalDefs }
    .ok { ctx with tableResource := some newTable }

/-- `updateIndexStructures` — dispatch a `@key` directive to primary-key
replacement or secondary-index creation.  On an error the returned context is
the input context: both branches throw before mutating anything. -/
def updateIndexStructures (definition : ObjectTypeDefinition) (d : Nat)
    (ctx : TransformerContext) : Option TransformError × TransformerContext :=
  let directive := directiveAt definition d
  if isPrimaryKey directive then
    match replacePrimaryKey definition (getDirectiveArguments directive) ctx with
    | .error e => (some e, ctx)
    | .ok ctx1 => (none, ctx1)
  else
    match appendSecondaryIndex definition (getDirectiveArguments directive) ctx with
    | .error e => (some e, ctx)
    | .ok ctx1 => (none, ctx1)

/-- The resolver-template expression AST (graphql-mapping-template, not under
src/).  Modelled from the spec: a closed tagged variant over literal,
reference, conditional, iteration, assignment, compound block and comment
nodes, composed functionally and printed to the templating text format.  The
constructors mirror the builder functions the sources import. -/
inductive Expression where
  | str (s : String)
  | raw (s : String)
  | ref (s : String)
  | qref (s : String)
  | newline
  | comment (s : String)
  | obj (fields : List (String × Expression))
  | list (es : List Expression)
  | set (assignTo : Expression) (value : Expression)
  | iff (condition : Expression) (expr : Expression) (inline : Bool)
  | ifElse (condition : Expression) (thenExpr : Expression) (elseExpr : Expression)
  | forEach (v : Expression) (collection : Expression) (body : List Expression)
  | compoundExpression (es : List Expression)
  | block (name : String) (es : List Expression)
  | equals (a : Expression) (b : Expression)
  | or (es : List Expression)
  | not (e : Expression)
  | parens (e : Expression)

mutual

/-- Modelled from the spec: the deterministic printer of
graphql-mapping-template (not under src/).  Renders the expression tree to
templating text; block layout details (indentation levels) are abstracted
since no claim depends on the rendered text. -/
def printExpression : Expression → String
  | .str s => "\"" ++ s ++ "\""
  | .raw s => s
  | .ref s => "$" ++ s
  | .qref s => "$util.qr(" ++ s ++ ")"
  | .newline => "\n"
  | .comment s => "## " ++ s ++ " **"
  | .obj fields => "\x7b" ++ printObjFields fields ++ "\x7d"
  | .list es => "[" ++ printExpressionList es ++ "]"
  | .set a v => "#set(" ++ printExpression a ++ " = " ++ printExpression v ++ ")"
  | .iff c e _ => "#if(" ++ printExpression c ++ ") " ++ printExpression e ++ " #end"
  | .ifElse c t e =>
    "#if(" ++ printExpression c ++ ") " ++ printExpression t ++ " #else " ++
      printExpression e ++ " #end"
  | .forEach v coll body =>
    "#foreach(" ++ printExpression v ++ " in " ++ printExpression coll ++ ") " ++
      printExpressionList body ++ " #end"
  | .compoundExpression es => printExpressionList es
  | .block name es => "## " ++ name ++ " **\n" ++ printExpressionList es ++ "\n#end"
  | .equals a b => printExpression a ++ " == " ++ printExpression b
  | .or es => "(" ++ printExpressionList es ++ ")"
  | .not e => "!" ++ printExpression e
  | .parens e => "(" ++ printExpression e ++ ")"

/-- Printer helper for object fields. -/
def printObjFields : List (String × Expression) → String
  | [] => ""
  | (k, v) :: rest => "\"" ++ k ++ "\": " ++ printExpression v ++ ",\n" ++ printObjFields rest

/-- Printer helper for expression sequences. -/
def printExpressionList : List Expression → String
  | [] => ""
  | e :: rest => printExpression e ++ "\n" ++ printExpressionList rest

end

/-- Modelled from the spec: snippet variable name from
graphql-transformer-common's ResourceConstants (not under src/). -/
def SNIPPETS.ModelObjectKey : String := "modelObjectKey"

/-- Modelled from the spec: snippet variable name from
graphql-transformer-common's ResourceConstants (not under src/). -/
def SNIPPETS.ModelQueryExpression : String := "modelQueryExpression"

/-- Modelled from the spec: read-authorization flag variable (static group
rule kind) from graphql-transformer-common's ResourceConstants. -/
def SNIPPETS.IsStaticGroupAuthorizedVariable : String := "isStaticGroupAuthorized"

/-- Modelled from the spec: read-authorization flag variable (dynamic group
rule kind) from graphql-transformer-common's ResourceConstants. -/
def SNIPPETS.IsDynamicGroupAuthorizedVariable : String := "isDynamicGroupAuthorized"

/-- Modelled from the spec: read-authorization flag variable (owner rule
kind) from graphql-transformer-common's ResourceConstants. -/
def SNIPPETS.IsOwnerAuthorizedVariable : String := "isOwnerAuthorized"

/-- Modelled from the spec: read-authorization flag variable (operation not
auth protected) from graphql-transformer-common's ResourceConstants. -/
def SNIPPETS.IsNotAuthProtectedVariable : String := "isNotAuthProtected"

/-- Modelled from the spec: key condition input type name for a base scalar
(graphql-transformer-common's ModelResourceIDs, not under src/). -/
def ModelResourceIDs.ModelKeyConditionInputTypeName (base : String) : String :=
  "Model" ++ base ++ "KeyConditionInput"

/-- Modelled from the spec: create input type name for a model type. -/
def ModelResourceIDs.ModelCreateInputObjectName (name : String) : String :=
  "Create" ++ name ++ "Input"

/-- Modelled from the spec: update input type name for a model type. -/
def ModelResourceIDs.ModelUpdateInputObjectName (name : String) : String :=
  "Update" ++ name ++ "Input"

/-- Modelled from the spec: delete input type name for a model type. -/
def ModelResourceIDs.ModelDeleteInputObjectName (name : String) : String :=
  "Delete" ++ name ++ "Input"

/-- Modelled from the spec: resolver logical id for a type/field pair. -/
def ResolverResourceID (typeName fieldName : String) : String :=
  typeName ++ fieldName ++ "Resolver"

/-- Modelled from the spec: `makeScalarKeyConditionForType` of
graphql-transformer-common builds the sort-key condition input object type
for a base scalar (one optional comparison field per supported operator). -/
def makeScalarKeyConditionForType (t : TypeNode) : InputObjectType :=
  let base := getBaseType t
  { name := ModelResourceIDs.ModelKeyConditionInputTypeName base,
    fields := [ makeInputValueDefinition "eq" (makeNamedType base),
                makeInputValueDefinition "le" (makeNamedType base),
                makeInputValueDefinition "lt" (makeNamedType base),
                makeInputValueDefinition "ge" (makeNamedType base),
                makeInputValueDefinition "gt" (makeNamedType base),
                makeInputValueDefinition "between" (TypeNode.listType (makeNamedType base)),
                makeInputValueDefinition "beginsWith" (makeNamedType base) ] }

/-- Modelled from the spec: `makeConnectionField` of
graphql-transformer-common — a query field returning the model connection
type, taking the given key arguments followed by the standard filter, limit
and pagination-token arguments. -/
def makeConnectionField (fieldName : String) (returnTypeName : String)
    (args : List InputValueDefinition) : FieldDefinition :=
  { name := fieldName,
    type := makeNamedType ("Model" ++ returnTypeName ++ "Connection"),
    arguments := args ++
      [ makeInputValueDefinition "filter" (makeNamedType ("Model" ++ returnTypeName ++ "FilterInput")),
        makeInputValueDefinition "limit" (makeNamedType "Int"),
        makeInputValueDefinition "nextToken" (makeNamedType "String") ] }

/-- Modelled from the spec: `applyKeyExpressionForCompositeKey` of
graphql-transformer-common builds the templating code that populates the
model query expression from the key fields and their attribute types; its
internal structure is outside every claim and is represented by a comment
leaf naming the keys and types. -/
def applyKeyExpressionForCompositeKey (keys : List String) (keyTypes : List String)
    (queryExprReference : String) : Expression :=
  .comment ("Set " ++ queryExprReference ++ " for keys " ++ condenseRangeKey keys ++
    " of types " ++ condenseRangeKey keyTypes)

/-- Modelled from the spec: `printBlock(name)(expr)` of
graphql-mapping-template prints an expression under a comment header. -/
def printBlock (name : String) (e : Expression) : String :=
  "## " ++ name ++ " **\n" ++ printExpression e

/-- `modelObjectKey` — the templating object carrying the (possibly
condensed) key information; throws for a zero-length field list. -/
def modelObjectKey (args : KeyArguments) (isMutation : Bool) :
    Except TransformError Expression :=
  let argsSource := if isMutation then "ctx.args.input" else "ctx.args"
  if args.fields.length > 2 then
    let rangeKeyFields := args.fields.drop 1
    let condensedSortKey := condenseRangeKey rangeKeyFields
    let condensedSortKeyValue := condenseRangeKey
      (rangeKeyFields.map (fun keyField => "$\x7b" ++ argsSource ++ "." ++ keyField ++ "\x7d"))
    .ok (.obj
      [ (args.fields.headD "",
         .ref ("util.dynamodb.toDynamoDB($" ++ argsSource ++ "." ++ args.fields.headD "" ++ ")")),
        (condensedSortKey,
         .ref ("util.dynamodb.toDynamoDB(\"" ++ condensedSortKeyValue ++ "\")")) ])
  else if args.fields.length == 2 then
    .ok (.obj
      [ (args.fields.getD 0 "",
         .ref ("util.dynamodb.toDynamoDB($" ++ argsSource ++ "." ++ args.fields.getD 0 "" ++ ")")),
        (args.fields.getD 1 "",
         .ref ("util.dynamodb.toDynamoDB($" ++ argsSource ++ "." ++ args.fields.getD 1 "" ++ ")")) ])
  else if args.fields.length == 1 then
    .ok (.obj
      [ (args.fields.getD 0 "",
         .ref ("util.dynamodb.toDynamoDB($" ++ argsSource ++ "." ++ args.fields.getD 0 "" ++ ")")) ])
  else .error (.invalidDirective "@key directives must include at least one field.")

/-- `ensureCompositeKey` — for composite keys, write the condensed range key
value back into the mutation input. -/
def ensureCompositeKey (args : KeyArguments) : Expression :=
  let argsSource := "ctx.args.input"
  if args.fields.length > 2 then
    let rangeKeyFields := args.fields.drop 1
    let condensedSortKey := condenseRangeKey rangeKeyFields
    let condensedSortKeyValue := condenseRangeKey
      (rangeKeyFields.map (fun keyField => "$\x7b" ++ argsSource ++ "." ++ keyField ++ "\x7d"))
    .qref ("$ctx.args.input.put(\"" ++ condensedSortKey ++ "\",\"" ++ condensedSortKeyValue ++ "\")")
  else .newline

/-- `setKeySnippet` — templating block that sets the structured key for the
get/create/update/delete resolvers. -/
def setKeySnippet (directive : Directive) (isMutation : Bool) :
    Except TransformError String := do
  let directiveArgs := getDirectiveArguments directive
  let keyObj ← modelObjectKey directiveArgs isMutation
  let cmds : List Expression :=
    if isMutation then
      [.set (.ref SNIPPETS.ModelObjectKey) keyObj, ensureCompositeKey directiveArgs]
    else
      [.set (.ref SNIPPETS.ModelObjectKey) keyObj]
  .ok (printBlock "Set the primary @key" (.compoundExpression cmds))

/-- The attribute types of the key fields (used by `setQuerySnippet`); a
failing field lookup models the JavaScript `TypeError` from reading `.type`
of `undefined`. -/
def keyFieldTypes (definition : ObjectTypeDefinition) (ctx : TransformerContext) :
    List String → Except TransformError (List String)
  | [] => .ok []
  | k :: rest =>
    match findField definition k with
    | none => .error .fieldAccessError
    | some field => do
      let t ← attributeTypeFromType field.type ctx
      let ts ← keyFieldTypes definition ctx rest
      .ok (t :: ts)

/-- `setQuerySnippet` — templating block that initialises the model query
expression for a `@key`. -/
def setQuerySnippet (definition : ObjectTypeDefinition) (args : KeyArguments)
    (ctx : TransformerContext) : Except TransformError Expression := do
  let keys := args.fields
  let keyTypes ← keyFieldTypes definition ctx keys
  .ok (.block "Set query expression for @key"
    [ .set (.ref SNIPPETS.ModelQueryExpression) (.obj []),
      applyKeyExpressionForCompositeKey keys keyTypes SNIPPETS.ModelQueryExpression ])

/-- `makeQueryResolver` — the resolver resource for a secondary `@key` that
declares a `queryField`: an index query against the model table. -/
def makeQueryResolver (definition : ObjectTypeDefinition) (args : KeyArguments)
    (ctx : TransformerContext) : Except TransformError Resolver := do
  let indexName := args.name.getD ""
  let fieldName := args.queryField.getD ""
  let requestVariable := "QueryRequest"
  let snippet ← setQuerySnippet definition args ctx
  .ok { fieldName := fieldName,
        requestMappingTemplate := printExpression (.compoundExpression
          [ snippet,
            .set (.ref "limit") (.ref "util.defaultIfNull($context.args.limit, 10)"),
            .set (.ref requestVariable) (.obj
              [ ("version", .str "2017-02-28"),
                ("operation", .str "Query"),
                ("limit", .ref "limit"),
                ("query", .ref SNIPPETS.ModelQueryExpression),
                ("index", .str indexName) ]),
            .iff (.ref "context.args.nextToken")
              (.set (.ref (requestVariable ++ ".nextToken")) (.str "$context.args.nextToken")) true,
            .iff (.ref "context.args.filter")
              (.set (.ref (requestVariable ++ ".filter"))
                (.ref "util.transform.toDynamoDBFilterExpression($ctx.args.filter)")) true,
            .raw ("$util.toJson($" ++ requestVariable ++ ")") ]),
        responseMappingTemplate := printExpression (.raw "$util.toJson($ctx.result)") }

/-- The argument list for the rewritten get field: each primary-key field as
a required (non-null) argument of its base type (also `primaryIdFields` for
the delete input, which has the same body in the source). -/
def getKeyArguments (definition : ObjectTypeDefinition) :
    List String → Except TransformError (List InputValueDefinition)
  | [] => .ok []
  | keyAttributeName :: rest =>
    match findField definition keyAttributeName with
    | none => .error .fieldAccessError
    | some keyField => do
      let restArgs ← getKeyArguments definition rest
      .ok (makeInputValueDefinition keyAttributeName
        (makeNonNullType (makeNamedType (getBaseType keyField.type))) :: restArgs)

/-- `updateGetField` — when a get resolver exists and the directive is the
primary key, replace the get query field's arguments with the primary key
fields, each non-null. -/
def updateGetField (definition : ObjectTypeDefinition) (d : Nat)
    (ctx : TransformerContext) : Option TransformError × TransformerContext :=
  let directive := directiveAt definition d
  match ctx.getResolver with
  | some getResolverResource =>
    if isPrimaryKey directive then
      let query := ctx.queryType
      let getField? := query.fields.find? (fun f => f.name == getResolverResource.fieldName)
      let args := getDirectiveArguments directive
      match getKeyArguments definition args.fields with
      | .error e => (some e, ctx)
      | .ok getArguments =>
        match getField? with
        | none => (some .fieldAccessError, ctx)
        | some getField =>
          let newGetField := { getField with arguments := getArguments }
          let newQuery := { query with
            fields := query.fields.map (fun f => if f.name == newGetField.name then newGetField else f) }
          (none, { ctx with queryType := newQuery })
    else (none, ctx)
  | none => (none, ctx)

/-- One argument of the rewritten list field, for key field index `i`: the
final field of a multi-field key gets the key condition input of its base
type, every other field a plain (nullable) argument of its base type. -/
def listKeyArgument (definition : ObjectTypeDefinition) (args : KeyArguments)
    (i : Nat) : Except TransformError InputValueDefinition :=
  let keyAttributeName := args.fields.getD i ""
  match findField definition keyAttributeName with
  | none => .error .fieldAccessError
  | some keyField =>
    if i == args.fields.length - 1 && args.fields.length != 1 then
      .ok (makeInputValueDefinition keyAttributeName
        (makeNamedType (ModelResourceIDs.ModelKeyConditionInputTypeName (getBaseType keyField.type))))
    else
      .ok (makeInputValueDefinition keyAttributeName
        (makeNamedType (getBaseType keyField.type)))

/-- The downward loop of `updateListField`: visit the key field indices from
last to first, prepending each derived argument to the accumulated
list. -/
def prependKeyArguments (definition : ObjectTypeDefinition) (args : KeyArguments) :
    List Nat → List InputValueDefinition → Except TransformError (List InputValueDefinition)
  | [], acc => .ok acc
  | i :: rest, acc =>
    match listKeyArgument definition args i with
    | .error e => .error e
    | .ok keyArgument => prependKeyArguments definition args rest (keyArgument :: acc)

/-- `updateListField` — when a list resolver exists and the directive is the
primary key, prepend the derived key arguments to the list query field's
existing arguments. -/
def updateListField (definition : ObjectTypeDefinition) (d : Nat)
    (ctx : TransformerContext) : Option TransformError × TransformerContext :=
  let directive := directiveAt definition d
  match ctx.listResolver with
  | some listResolverResource =>
    if isPrimaryKey directive then
      let query := ctx.queryType
      match query.fields.find? (fun f => f.name == listResolverResource.fieldName) with
      | none => (some .fieldAccessError, ctx)
      | some listField =>
        let args := getDirectiveArguments directive
        match prependKeyArguments definition args
            (List.range args.fields.length).reverse listField.arguments with
        | .error e => (some e, ctx)
        | .ok listArguments =>
          let newListField := { listField with arguments := listArguments }
          let newQuery := { query with
            fields := query.fields.map (fun f => if f.name == newListField.name then newListField else f) }
          (none, { ctx with queryType := newQuery })
    else (none, ctx)
  | none => (none, ctx)

/-- The indexed argument map of `ensureQueryField`: the final field of a
multi-field key gets the key condition input, every other field a required
(non-null) argument of its base type. -/
def queryKeyArguments (definition : ObjectTypeDefinition) (args : KeyArguments) :
    Nat → List String → Except TransformError (List InputValueDefinition)
  | _, [] => .ok []
  | i, keyAttributeName :: rest =>
    match findField definition keyAttributeName with
    | none => .error .fieldAccessError
    | some keyField => do
      let keyArgument :=
        if i == args.fields.length - 1 && args.fields.length != 1 then
          makeInputValueDefinition keyAttributeName
            (makeNamedType (ModelResourceIDs.ModelKeyConditionInputTypeName (getBaseType keyField.type)))
        else
          makeInputValueDefinition keyAttributeName
            (makeNonNullType (makeNamedType (getBaseType keyField.type)))
      let restArgs ← queryKeyArguments definition args (i + 1) rest
      .ok (keyArgument :: restArgs)

/-- `ensureQueryField` — for a secondary `@key` with a `queryField`, append
the synthesized query field to the Query type. -/
def ensureQueryField (definition : ObjectTypeDefinition) (d : Nat)
    (ctx : TransformerContext) : Option TransformError × TransformerContext :=
  let directive := directiveAt definition d
  let args := getDirectiveArguments directive
  if strTruthy args.queryField && !(isPrimaryKey directive) then
    match queryKeyArguments definition args 0 args.fields with
    | .error e => (some e, ctx)
    | .ok queryArgs =>
      let queryField := makeConnectionField (args.queryField.getD "") definition.name queryArgs
      let queryType := ctx.queryType
      let newQueryType := { queryType with fields := queryType.fields ++ [queryField] }
      (none, { ctx with queryType := newQueryType })
  else (none, ctx)

/-- `updateQueryFields` — get field, list field, then the synthesized query
field. -/
def updateQueryFields (definition : ObjectTypeDefinition) (d : Nat)
    (ctx : TransformerContext) : Option TransformError × TransformerContext :=
  match updateGetField definition d ctx with
  | (some e, c) => (some e, c)
  | (none, c1) =>
    match updateListField definition d c1 with
    | (some e, c) => (some e, c)
    | (none, c2) => ensureQueryField definition d c2

/-- `replaceCreateInput` — force key fields non-null in the create input;
non-key fields keep the nullability of the model declaration (fields absent
from the model type are dropped).  The source tests key membership with
`keyFields.find(k => k === f.name.value)`, whose result is used for
truthiness; field names are non-empty so this is plain membership. -/
def replaceCreateInput (definition : ObjectTypeDefinition) (input : InputObjectType)
    (keyFields : List String) : InputObjectType :=
  { input with fields := input.fields.foldl (fun acc f =>
      if keyFields.contains f.name then
        acc ++ [makeInputValueDefinition f.name (makeNonNullType (makeNamedType (getBaseType f.type)))]
      else
        match definition.fields.find? (fun fld => fld.name == f.name) with
        | some existingField =>
          if isNonNullType existingField.type then
            acc ++ [makeInputValueDefinition f.name (makeNonNullType (makeNamedType (getBaseType f.type)))]
          else
            acc ++ [makeInputValueDefinition f.name (makeNamedType (getBaseType f.type))]
        | none => acc) [] }

/-- `replaceUpdateInput` — key fields non-null, everything else nullable. -/
def replaceUpdateInput (input : InputObjectType) (keyFields : List String) :
    InputObjectType :=
  { input with fields := input.fields.map (fun f =>
      if keyFields.contains f.name then
        makeInputValueDefinition f.name (makeNonNullType (makeNamedType (getBaseType f.type)))
      else
        makeInputValueDefinition f.name (makeNamedType (getBaseType f.type))) }

/-- `primaryIdFields` — the primary key fields as non-null input values
(used to replace the delete input's whole field set). -/
def primaryIdFields (definition : ObjectTypeDefinition) :
    List String → Except TransformError (List InputValueDefinition)
  | [] => .ok []
  | keyFieldName :: rest =>
    match findField definition keyFieldName with
    | none => .error .fieldAccessError
    | some keyField => do
      let restFields ← primaryIdFields definition rest
      .ok (makeInputValueDefinition keyFieldName
        (makeNonNullType (makeNamedType (getBaseType keyField.type))) :: restFields)

/-- `replaceDeleteInput` — the delete input's field set becomes exactly the
primary key fields, non-null. -/
def replaceDeleteInput (definition : ObjectTypeDefinition) (input : InputObjectType)
    (keyFields : List String) : Except TransformError InputObjectType := do
  let fields ← primaryIdFields definition keyFields
  .ok { input with fields := fields }

/-- `updateInputObjects` — rewrite the create, update and delete input
types for a primary `@key`. -/
def updateInputObjects (definition : ObjectTypeDefinition) (d : Nat)
    (ctx : TransformerContext) : Option TransformError × TransformerContext :=
  let directive := directiveAt definition d
  if isPrimaryKey directive then
    let directiveArgs := getDirectiveArguments directive
    let ctx1 :=
      match ctx.getType (ModelResourceIDs.ModelCreateInputObjectName definition.name) with
      | some (.inputDef createInput) =>
        ctx.putInputType (replaceCreateInput definition createInput directiveArgs.fields)
      | _ => ctx
    let ctx2 :=
      match ctx1.getType (ModelResourceIDs.ModelUpdateInputObjectName definition.name) with
      | some (.inputDef updateInput) =>
        ctx1.putInputType (replaceUpdateInput updateInput directiveArgs.fields)
      | _ => ctx1
    match ctx2.getType (ModelResourceIDs.ModelDeleteInputObjectName definition.name) with
    | some (.inputDef deleteInput) =>
      match replaceDeleteInput definition deleteInput directiveArgs.fields with
      | .error e => (some e, ctx2)
      | .ok newInput => (none, ctx2.putInputType newInput)
    | _ => (none, ctx2)
  else (none, ctx)

/-- `updateSchema` — query fields, then input objects. -/
def updateSchema (definition : ObjectTypeDefinition) (d : Nat)
    (ctx : TransformerContext) : Option TransformError × TransformerContext :=
  match updateQueryFields definition d ctx with
  | (some e, c) => (some e, c)
  | (none, c1) => updateInputObjects definition d c1

/-- Prepend a snippet to a resolver's request mapping template. -/
def prependToTemplate (snippet : String) (r : Resolver) : Resolver :=
  { r with requestMappingTemplate := snippet ++ "\n" ++ r.requestMappingTemplate }

/-- `updateResolvers` — for a primary `@key`, prepend the key-setting
snippets to the get/list/create/update/delete resolver templates; for a
named `@key` with a `queryField`, create the index query resolver and its
stack mapping. -/
def updateResolvers (definition : ObjectTypeDefinition) (d : Nat)
    (ctx : TransformerContext) : Option TransformError × TransformerContext :=
  let directive := directiveAt definition d
  let directiveArgs := getDirectiveArguments directive
  if isPrimaryKey directive then
    let step1 : Except TransformError TransformerContext :=
      match ctx.getResolver with
      | some r => do
        let snippet ← setKeySnippet directive false
        .ok { ctx with getResolver := some (prependToTemplate snippet r) }
      | none => .ok ctx
    match step1 with
    | .error e => (some e, ctx)
    | .ok ctx1 =>
      let step2 : Except TransformError TransformerContext :=
        match ctx1.listResolver with
        | some r => do
          let snippet ← setQuerySnippet definition directiveArgs ctx1
          .ok { ctx1 with listResolver := some (prependToTemplate (printExpression snippet) r) }
        | none => .ok ctx1
      match step2 with
      | .error e => (some e, ctx1)
      | .ok ctx2 =>
        let step3 : Except TransformError TransformerContext :=
          match ctx2.createResolver with
          | some r => do
            let snippet ← setKeySnippet directive true
            .ok { ctx2 with createResolver := some (prependToTemplate snippet r) }
          | none => .ok ctx2
        match step3 with
        | .error e => (some e, ctx2)
        | .ok ctx3 =>
          let step4 : Except TransformError TransformerContext :=
            match ctx3.updateResolver with
            | some r => do
              let snippet ← setKeySnippet directive true
              .ok { ctx3 with updateResolver := some (prependToTemplate snippet r) }
            | none => .ok ctx3
          match step4 with
          | .error e => (some e, ctx3)
          | .ok ctx4 =>
            match ctx4.deleteResolver with
            | some r =>
              match setKeySnippet directive true with
              | .error e => (some e, ctx4)
              | .ok snippet =>
                (none, { ctx4 with deleteResolver := some (prependToTemplate snippet r) })
            | none => (none, ctx4)
  else
    if strTruthy directiveArgs.name && strTruthy directiveArgs.queryField then
      let queryTypeName := ctx.queryType.name
      let queryResolverId := ResolverResourceID queryTypeName (directiveArgs.queryField.getD "")
      match makeQueryResolver definition directiveArgs ctx with
      | .error e => (some e, ctx)
      | .ok queryResolver =>
        (none, { ctx with
          stackMappings := ctx.stackMappings ++ [(definition.name, "^" ++ queryResolverId ++ "$")],
          queryFieldResolvers := ctx.queryFieldResolvers ++ [(queryResolverId, queryResolver)] })
    else (none, ctx)

/-- `addKeyConditionInputs` — register the sort-key condition input type for
a multi-field `@key` (composite keys use the String condition input), unless
a type of that name already exists. -/
def addKeyConditionInputs (definition : ObjectTypeDefinition) (d : Nat)
    (ctx : TransformerContext) : Option TransformError × TransformerContext :=
  let args := getDirectiveArguments (directiveAt definition d)
  if args.fields.length > 1 then
    let finalSortKeyFieldName := args.fields.getD (args.fields.length - 1) ""
    let sortKeyConditionInput? : Except TransformError InputObjectType :=
      if args.fields.length > 2 then
        .ok (makeScalarKeyConditionForType (makeNamedType "String"))
      else
        match definition.fields.find? (fun f => f.name == finalSortKeyFieldName) with
        | none => .error .fieldAccessError
        | some finalSortKeyField => .ok (makeScalarKeyConditionForType finalSortKeyField.type)
    match sortKeyConditionInput? with
    | .error e => (some e, ctx)
    | .ok sortKeyConditionInput =>
      if (ctx.getType sortKeyConditionInput.name).isNone then
        (none, ctx.addInput sortKeyConditionInput)
      else (none, ctx)
  else (none, ctx)

/-- The `object` entry point of the `@key` transformer: validate, update the
index structures, update the schema, update the resolvers, and register key
condition inputs.  On an error the returned context is the state at the
moment of the throw. -/
def objectApply (definition : ObjectTypeDefinition) (d : Nat)
    (ctx : TransformerContext) : Option TransformError × TransformerContext :=
  match validate definition d ctx with
  | .error e => (some e, ctx)
  | .ok _ =>
    match updateIndexStructures definition d ctx with
    | (some e, c) => (some e, c)
    | (none, c1) =>
      match updateSchema definition d c1 with
      | (some e, c) => (some e, c)
      | (none, c2) =>
        match updateResolvers definition d c2 with
        | (some e, c) => (some e, c)
        | (none, c3) => addKeyConditionInputs definition d c3

/-- The reference map built by the cross-stack reference resolver: logical
name of the referenced resource to the list of structural paths where it is
used (`ReferenceMap` of the source, a JavaScript object keyed by name). -/
abbrev ReferenceMap : Type := List (String × List (List String))

/-- `mergeReferenceMaps` — for each key of `b`, concatenate its path list
onto `a`'s entry for that key, or add the entry when `a` lacks the key (the
source mutates and returns `a`). -/
def mergeReferenceMaps (a b : ReferenceMap) : ReferenceMap :=
  b.foldl (fun acc e =>
    if acc.any (fun p => p.1 == e.1) then
      acc.map (fun p => if p.1 == e.1 then (p.1, p.2 ++ e.2) else p)
    else acc ++ [e]) a

/-- The value at a key of a reference map (`m[k]`, with a missing key read
as the empty path list). -/
def findRM (m : ReferenceMap) (k : String) : List (List String) :=
  match m.find? (fun e => e.1 == k) with
  | some e => e.2
  | none => []

/-- A plain JSON-like template tree, the input shape of the reference walk:
scalars, lists, and mappings (the `toJSON` unwrapping of the source is the
identity here since the tree is already plain). -/
inductive JsonNode where
  | str (s : String)
  | num (n : Int)
  | bool (b : Bool)
  | arr (xs : List JsonNode)
  | obj (fields : List (String × JsonNode))

mutual

/-- JavaScript string coercion of a JSON value, as used when a non-string
reference target becomes a computed object key. -/
def jsToString : JsonNode → String
  | .str s => s
  | .num n => toString n
  | .bool b => if b then "true" else "false"
  | .arr xs => jsToStringList xs
  | .obj _ => "[object Object]"

/-- JavaScript array-to-string coercion (elements joined with commas). -/
def jsToStringList : List JsonNode → String
  | [] => ""
  | [x] => jsToString x
  | x :: rest => jsToString x ++ "," ++ jsToStringList rest

end

/-- JavaScript truthiness of a JSON value. -/
def truthy : JsonNode → Bool
  | .str s => !(s == "")
  | .num n => !(n == 0)
  | .bool b => b
  | .arr _ => true
  | .obj _ => true

/-- JavaScript truthiness of a possibly-absent property value. -/
def truthyOpt : Option JsonNode → Bool
  | none => false
  | some v => truthy v

/-- String coercion of a possibly-absent value (`undefined` prints as the
key "undefined" when used as a computed object key). -/
def jsToStringOpt : Option JsonNode → String
  | none => "undefined"
  | some v => jsToString v

/-- The resource component of an `Fn::GetAtt` value: `getAtt[0]` — the first
element of an array, the first character of a string, `undefined`
otherwise. -/
def getAttKey : Option JsonNode → String
  | some (.arr (x :: _)) => jsToString x
  | some (.str s) =>
    match s.toList with
    | c :: _ => String.mk [c]
    | [] => "undefined"
  | _ => "undefined"

/-- Property lookup on a JSON mapping (`jsonNode[key]`). -/
def lookupProp (fields : List (String × JsonNode)) (k : String) : Option JsonNode :=
  (fields.find? (fun e => e.1 == k)).map (fun e => e.2)

mutual

/-- `walk` — the recursive descent of `getTemplateReferences`: a mapping
with a truthy `Ref` records its target at the current path, otherwise a
truthy `Fn::GetAtt` records the resource component of the pair; any other
composite descends into each field or element, appending the key (or the
decimal index, for arrays, which the source reaches through the object
branch via `Object.keys`) to the path and merging the child maps. -/
def walk : JsonNode → List String → ReferenceMap
  | .obj fields, path =>
    let refValue := lookupProp fields "Ref"
    let getAtt := lookupProp fields "Fn::GetAtt"
    if truthyOpt refValue then
      [(jsToStringOpt refValue, [path])]
    else if truthyOpt getAtt then
      [(getAttKey getAtt, [path])]
    else
      walkFields [] fields path
  | .arr xs, path => walkElems [] 0 xs path
  | _, _ => []

/-- The field loop of `walk` (left fold merging child maps into the
accumulator). -/
def walkFields (acc : ReferenceMap) : List (String × JsonNode) → List String → ReferenceMap
  | [], _ => acc
  | kv :: rest, path =>
    walkFields (mergeReferenceMaps acc (walk kv.2 (path ++ [kv.1]))) rest path

/-- The element loop of `walk` for arrays (indices become decimal path
components). -/
def walkElems (acc : ReferenceMap) (i : Nat) : List JsonNode → List String → ReferenceMap
  | [], _ => acc
  | x :: rest, path =>
    walkElems (mergeReferenceMaps acc (walk x (path ++ [toString i]))) (i + 1) rest path

end

/-- `getTemplateReferences` — the reference map of a whole template. -/
def getTemplateReferences (template : JsonNode) : ReferenceMap :=
  walk template []

/-- `throwIfUnauthorizedForReadOperations` — the read-operation
authorization gate of the auth resource factory: unless one of the four
authorization flags equals true, terminate the request as unauthorized. -/
def throwIfUnauthorizedForReadOperations : Expression :=
  .iff
    (.not (.parens (.or
      [ .equals (.ref SNIPPETS.IsNotAuthProtectedVariable) (.raw "true"),
        .equals (.ref SNIPPETS.IsStaticGroupAuthorizedVariable) (.raw "true"),
        .equals (.ref SNIPPETS.IsDynamicGroupAuthorizedVariable) (.raw "true"),
        .equals (.ref SNIPPETS.IsOwnerAuthorizedVariable) (.raw "true") ])))
    (.raw "$util.unauthorized()")
    false

/-- Modelled from the spec: the template engine's value of a condition leaf
— a variable reference reads the environment, the literal `true` is true. -/
def boolValue (env : String → Bool) : Expression → Bool
  | .ref v => env v
  | .raw s => s == "true"
  | _ => false

mutual

/-- Modelled from the spec: the template engine's evaluation of the boolean
condition sublanguage used by the authorization gate, over an environment
assigning each flag variable a boolean. -/
def evalCondition (env : String → Bool) : Expression → Bool
  | .parens e => evalCondition env e
  | .not e => !(evalCondition env e)
  | .or es => evalConditionAny env es
  | .equals a b => boolValue env a == boolValue env b
  | .ref v => env v
  | .raw s => s == "true"
  | _ => false

/-- Disjunction of a condition list. -/
def evalConditionAny (env : String → Bool) : List Expression → Bool
  | [] => false
  | e :: rest => evalCondition env e || evalConditionAny env rest

end

/-- The condition of a conditional expression node (the authorization gate
is one). -/
def guardCondition : Expression → Option Expression
  | .iff c _ _ => some c
  | _ => none

/-- The body of a conditional expression node. -/
def guardBody : Expression → Option Expression
  | .iff _ b _ => some b
  | _ => none

instance exceptDecEq {ε α : Type} [DecidableEq ε] [DecidableEq α] :
    DecidableEq (Except ε α) := fun x y =>
  match x, y with
  | .ok a, .ok b =>
    if h : a = b then isTrue (by rw [h]) else isFalse (fun hc => by cases hc; exact h rfl)
  | .error a, .error b =>
    if h : a = b then isTrue (by rw [h]) else isFalse (fun hc => by cases hc; exact h rfl)
  | .ok _, .error _ => isFalse (fun hc => by cases hc)
  | .error _, .ok _ => isFalse (fun hc => by cases hc)

/-- The first entry of a derived key schema is always the HASH entry for the
directive's first field. -/
theorem keySchema_head (args : KeyArguments) :
    (keySchema args).headD ⟨"", ""⟩ = ⟨args.fields.headD "", "HASH"⟩ := by
  unfold keySchema
  split <;> rfl

/-- A successful `attributeDefinitions` has the same attribute names, in
order, as the derived key schema. -/
theorem attributeDefinitions_names {args : KeyArguments} {defn : ObjectTypeDefinition}
    {ctx : TransformerContext} {ads : List AttributeDefinition}
    (h : attributeDefinitions args defn ctx = .ok ads) :
    ads.map (fun a => a.AttributeName) = (keySchema args).map (fun k => k.AttributeName) := by
  unfold attributeDefinitions at h
  unfold keySchema
  by_cases h2 : args.fields.length > 2
  · rw [if_pos h2] at h
    simp only [] at h
    rw [if_pos (by omega)]
    cases hf : findField defn (args.fields.headD "") with
    | none => simp only [hf] at h; cases h
    | some f =>
      simp only [hf] at h
      cases hat : attributeTypeFromType f.type ctx with
      | error e => simp only [hat] at h; cases h
      | ok t =>
        simp only [hat] at h
        cases h
        rfl
  · rw [if_neg h2] at h
    by_cases h1 : args.fields.length == 2
    · rw [if_pos h1] at h
      simp only [] at h
      rw [if_pos (by simp at h1; omega)]
      cases hf : findField defn (args.fields.getD 0 "") with
      | none => simp only [hf] at h; cases h
      | some hfld =>
        simp only [hf] at h
        cases hat : attributeTypeFromType hfld.type ctx with
        | error e => simp only [hat] at h; cases h
        | ok t =>
          simp only [hat] at h
          cases hg : findField defn (args.fields.getD 1 "") with
          | none => simp only [hg] at h; cases h
          | some sfld =>
            simp only [hg] at h
            cases hbt : attributeTypeFromType sfld.type ctx with
            | error e => simp only [hbt] at h; cases h
            | ok t2 =>
              simp only [hbt] at h
              cases h
              have hl : args.fields.length = 2 := by simpa using h1
              match args.fields, hl with
              | [x, y], _ => simp [condenseRangeKey, String.intercalate, String.intercalate.go]
    · rw [if_neg h1] at h
      rw [if_neg (by simp at h1; omega)]
      cases hh : args.fields.head? with
      | none => simp only [hh] at h; cases h
      | some fieldName =>
        simp only [hh] at h
        cases hf : findField defn fieldName with
        | none => simp only [hf] at h; cases h
        | some f =>
          simp only [hf] at h
          cases hat : attributeTypeFromType f.type ctx with
          | error e => simp only [hat] at h; cases h
          | ok t =>
            simp only [hat] at h
            cases h
            simp [List.headD_eq_head?, hh]

/-- C1: For every primary (unnamed) `@key` directive with at least three
fields `[f0, f1, ..., fn]`, the derived KeySchema is
`[(f0, HASH), (f1#...#fn, RANGE)]` — the RANGE attribute name being the tail
fields joined with `#` — and the derived AttributeDefinitions list has
exactly 2 entries, the second of which is typed STRING (`S`) regardless of
the tail fields' underlying scalar types. -/
theorem c1_primary_composite_key_schema
    (args : KeyArguments) (defn : ObjectTypeDefinition) (ctx : TransformerContext)
    (ads : List AttributeDefinition)
    (h3 : 3 ≤ args.fields.length)
    (h : attributeDefinitions args defn ctx = .ok ads) :
    keySchema args =
      [ ⟨args.fields.headD "", "HASH"⟩,
        ⟨condenseRangeKey (args.fields.drop 1), "RANGE"⟩ ] ∧
    ads.length = 2 ∧
    ads.getD 1 ⟨"", ""⟩ = ⟨condenseRangeKey (args.fields.drop 1), "S"⟩ := by
  unfold attributeDefinitions at h
  rw [if_pos (by omega)] at h
  simp only [] at h
  cases hf : findField defn (args.fields.headD "") with
  | none => simp only [hf] at h; cases h
  | some f =>
    simp only [hf] at h
    cases hat : attributeTypeFromType f.type ctx with
    | error e => simp only [hat] at h; cases h
    | ok t =>
      simp only [hat] at h
      cases h
      refine ⟨?_, rfl, rfl⟩
      unfold keySchema
      rw [if_pos (by omega)]

/-- Concrete instance for C1: `@key(fields: ["email", "kind", "date"])` on
non-string tail fields. -/
def c1Definition : ObjectTypeDefinition :=
  { name := "Test",
    fields := [ ⟨"email", .nonNull (.named "String"), []⟩,
                ⟨"kind", .nonNull (.named "Int"), []⟩,
                ⟨"date", .nonNull (.named "Int"), []⟩ ] }

/-- The `@key` arguments of the C1 instance. -/
def c1Args : KeyArguments := { fields := ["email", "kind", "date"] }

/-- An empty Query type for concrete contexts. -/
def emptyQueryType : ObjectTypeDefinition := { name := "Query", fields := [] }

/-- A minimal transformer context. -/
def baseCtx : TransformerContext := { queryType := emptyQueryType }

/-- The attribute definitions derived for the C1 instance. -/
def c1Ads : List AttributeDefinition := [⟨"email", "S"⟩, ⟨"kind#date", "S"⟩]

/-- Witness for C1 at the concrete three-field key. -/
theorem c1_primary_composite_key_schema_witness :
    (3 ≤ c1Args.fields.length ∧
     attributeDefinitions c1Args c1Definition baseCtx = .ok c1Ads) ∧
    (keySchema c1Args =
      [ ⟨c1Args.fields.headD "", "HASH"⟩,
        ⟨condenseRangeKey (c1Args.fields.drop 1), "RANGE"⟩ ] ∧
     c1Ads.length = 2 ∧
     c1Ads.getD 1 ⟨"", ""⟩ = ⟨condenseRangeKey (c1Args.fields.drop 1), "S"⟩) :=
  ⟨⟨by decide, by decide⟩,
   c1_primary_composite_key_schema c1Args c1Definition baseCtx c1Ads (by decide) (by decide)⟩

/-- Whether a conditional gate expression fires (its condition evaluates to
true) under an environment for the template variables. -/
def gateFires (env : String → Bool) : Expression → Bool
  | .iff c _ _ => evalCondition env c
  | _ => false

/-- C9: the composed read-operation authorization check permits the request
(the unauthorized gate does not fire) exactly when at least one of the four
flags — not-auth-protected, static-group-authorized,
dynamic-group-authorized, owner-authorized — is true; and the gate's body is
the unauthorized-termination leaf. -/
theorem c9_read_auth_gate (env : String → Bool) :
    (gateFires env throwIfUnauthorizedForReadOperations = false ↔
      (env SNIPPETS.IsNotAuthProtectedVariable = true ∨
       env SNIPPETS.IsStaticGroupAuthorizedVariable = true ∨
       env SNIPPETS.IsDynamicGroupAuthorizedVariable = true ∨
       env SNIPPETS.IsOwnerAuthorizedVariable = true)) ∧
    guardBody throwIfUnauthorizedForReadOperations = some (.raw "$util.unauthorized()") := by
  constructor
  · cases h1 : env SNIPPETS.IsNotAuthProtectedVariable <;>
      cases h2 : env SNIPPETS.IsStaticGroupAuthorizedVariable <;>
      cases h3 : env SNIPPETS.IsDynamicGroupAuthorizedVariable <;>
      cases h4 : env SNIPPETS.IsOwnerAuthorizedVariable <;>
      simp [gateFires, throwIfUnauthorizedForReadOperations, evalCondition,
        evalConditionAny, boolValue, h1, h2, h3, h4]
  · rfl

set_option maxRecDepth 8000 in
/-- C10: when a named (secondary) `@key` is applied to a type definition
that carries no unnamed (primary) `@key` directive, the LSI/GSI
classification compares the directive's first field name against the literal
default partition key name `id` — not against the table resource's actual
KeySchema: the index lands in LocalSecondaryIndexes exactly when the first
field is named `id`, and in GlobalSecondaryIndexes otherwise. -/
theorem c10_default_id_partition_classification
    (defn : ObjectTypeDefinition) (args : KeyArguments) (ctx ctx' : TransformerContext)
    (t : TableProperties)
    (hnp : getPrimaryKey defn = none)
    (ht : ctx.tableResource = some t)
    (h : appendSecondaryIndex defn args ctx = .ok ctx') :
    ∃ t', ctx'.tableResource = some t' ∧
      (args.fields.headD "" = "id" →
        t'.LocalSecondaryIndexes =
          some (appendList t.LocalSecondaryIndexes ⟨args.name, keySchema args⟩) ∧
        t'.GlobalSecondaryIndexes = t.GlobalSecondaryIndexes) ∧
      (args.fields.headD "" ≠ "id" →
        t'.GlobalSecondaryIndexes =
          some (appendList t.GlobalSecondaryIndexes ⟨args.name, keySchema args⟩) ∧
        t'.LocalSecondaryIndexes = t.LocalSecondaryIndexes) := by
  unfold appendSecondaryIndex at h
  simp only [] at h
  cases had : attributeDefinitions args defn ctx with
  | error e => simp only [had] at h; cases h
  | ok ads =>
    simp only [had] at h
    simp only [hnp] at h
    simp only [ht] at h
    rw [keySchema_head] at h
    split at h
    next hcond =>
      cases h
      have hid : args.fields.headD "" = "id" := (beq_iff_eq.mp hcond).symm
      exact ⟨_, rfl, fun _ => ⟨rfl, rfl⟩, fun hc => absurd hid hc⟩
    next hcond =>
      cases h
      have hid : ¬ (args.fields.headD "" = "id") := by
        intro hc
        apply hcond
        show ("id" == args.fields.headD "") = true
        rw [hc]
        rfl
      exact ⟨_, rfl, fun hc => absurd hc hid, fun _ => ⟨rfl, rfl⟩⟩

/-- Concrete instance for C10: a type with `@model` and one named `@key`
whose first field is `id`, and no primary `@key` directive. -/
def c10Args : KeyArguments := { name := some "byX", fields := ["id", "x"] }

/-- The C10 type definition (no unnamed `@key`). -/
def c10Definition : ObjectTypeDefinition :=
  { name := "Test",
    fields := [ ⟨"id", .nonNull (.named "ID"), []⟩,
                ⟨"x", .nonNull (.named "String"), []⟩ ],
    directives := [ ⟨"model", {}⟩, ⟨"key", c10Args⟩ ] }

/-- The C10 table before the directive is applied. -/
def c10Table : TableProperties :=
  { KeySchema := [⟨"id", "HASH"⟩], AttributeDefinitions := [⟨"id", "S"⟩] }

/-- The C10 context before the directive is applied. -/
def c10Ctx : TransformerContext := { baseCtx with tableResource := some c10Table }

/-- The C10 context after the directive is applied (the index landed in
LocalSecondaryIndexes because the first field is literally `id`). -/
def c10TableAfter : TableProperties :=
  { KeySchema := [⟨"id", "HASH"⟩],
    AttributeDefinitions := [⟨"id", "S"⟩, ⟨"x", "S"⟩],
    GlobalSecondaryIndexes := none,
    LocalSecondaryIndexes := some [⟨some "byX", [⟨"id", "HASH"⟩, ⟨"x", "RANGE"⟩]⟩] }

/-- The C10 context after the directive is applied. -/
def c10CtxAfter : TransformerContext :=
  { baseCtx with tableResource := some c10TableAfter }

/-- Witness for C10 at the concrete named key `["id", "x"]`. -/
theorem c10_default_id_partition_classification_witness :
    (getPrimaryKey c10Definition = none ∧
     c10Ctx.tableResource = some c10Table ∧
     appendSecondaryIndex c10Definition c10Args c10Ctx = .ok c10CtxAfter) ∧
    (∃ t', c10CtxAfter.tableResource = some t' ∧
      (c10Args.fields.headD "" = "id" →
        t'.LocalSecondaryIndexes =
          some (appendList c10Table.LocalSecondaryIndexes ⟨c10Args.name, keySchema c10Args⟩) ∧
        t'.GlobalSecondaryIndexes = c10Table.GlobalSecondaryIndexes) ∧
      (c10Args.fields.headD "" ≠ "id" →
        t'.GlobalSecondaryIndexes =
          some (appendList c10Table.GlobalSecondaryIndexes ⟨c10Args.name, keySchema c10Args⟩) ∧
        t'.LocalSecondaryIndexes = c10Table.LocalSecondaryIndexes)) :=
  ⟨⟨rfl, rfl, rfl⟩,
   c10_default_id_partition_classification c10Definition c10Args c10Ctx c10CtxAfter c10Table
     rfl rfl rfl⟩

/-- The partition key name `appendSecondaryIndex` classifies against: the
first field of the type's statically declared unnamed `@key` directive, or
the literal `id` when the type declares none. -/
def staticPartitionKeyName (defn : ObjectTypeDefinition) : String :=
  match getPrimaryKey defn with
  | some dir => (getDirectiveArguments dir).fields.headD ""
  | none => "id"

/-- Concrete instance for C2: the named `@key` precedes the unnamed one, so
the table still has its default `id` partition key when the named directive
is processed. -/
def c2SecondaryArgs : KeyArguments := { name := some "byId", fields := ["id", "x"] }

/-- The C2 type: a named `@key` on `[id, x]` declared before an unnamed
`@key` on `[email]`. -/
def c2Definition : ObjectTypeDefinition :=
  { name := "Test",
    fields := [ ⟨"id", .nonNull (.named "ID"), []⟩,
                ⟨"x", .nonNull (.named "String"), []⟩,
                ⟨"email", .nonNull (.named "String"), []⟩ ],
    directives := [ ⟨"key", c2SecondaryArgs⟩, ⟨"key", { fields := ["email"] }⟩ ] }

/-- The C2 table before the named directive runs (default `id` HASH key). -/
def c2Table : TableProperties :=
  { KeySchema := [⟨"id", "HASH"⟩], AttributeDefinitions := [⟨"id", "S"⟩] }

/-- The C2 context before the named directive runs. -/
def c2Ctx : TransformerContext := { baseCtx with tableResource := some c2Table }

/-- The C2 table after the named directive runs. -/
def c2TableAfter : TableProperties :=
  { KeySchema := [⟨"id", "HASH"⟩],
    AttributeDefinitions := [⟨"id", "S"⟩, ⟨"x", "S"⟩],
    GlobalSecondaryIndexes := some [⟨some "byId", [⟨"id", "HASH"⟩, ⟨"x", "RANGE"⟩]⟩],
    LocalSecondaryIndexes := none }

/-- The C2 context after the named directive runs. -/
def c2CtxAfter : TransformerContext := { baseCtx with tableResource := some c2TableAfter }

/-- Counterexample to C2 as stated: the directive's HASH attribute (`id`)
equals the table's existing primary HASH attribute name (`id`), yet the
index is appended as a Global Secondary Index and no Local Secondary Index
is created — the classification consulted the statically declared unnamed
`@key` (`email`), not the table's KeySchema. -/
theorem c2_counterexample :
    (c2Table.KeySchema.headD ⟨"", ""⟩).AttributeName = "id" ∧
    (c2Table.KeySchema.headD ⟨"", ""⟩).KeyType = "HASH" ∧
    c2SecondaryArgs.fields.headD "" = "id" ∧
    appendSecondaryIndex c2Definition c2SecondaryArgs c2Ctx = .ok c2CtxAfter ∧
    c2TableAfter.LocalSecondaryIndexes = none ∧
    c2TableAfter.GlobalSecondaryIndexes =
      some [⟨some "byId", [⟨"id", "HASH"⟩, ⟨"x", "RANGE"⟩]⟩] :=
  ⟨rfl, rfl, rfl, rfl, rfl, rfl⟩

/-- C2 (amended): for every named (secondary) `@key` directive applied to a
type whose table resource exists, the index is appended as a Local Secondary
Index exactly when the directive's HASH attribute (its first field) equals
the first field of the type's statically declared unnamed `@key` directive —
or the literal `id` when the type declares none — and as a Global Secondary
Index otherwise; the table's current KeySchema is not consulted. -/
theorem c2_secondary_index_classification
    (defn : ObjectTypeDefinition) (args : KeyArguments) (ctx ctx' : TransformerContext)
    (t : TableProperties)
    (ht : ctx.tableResource = some t)
    (h : appendSecondaryIndex defn args ctx = .ok ctx') :
    ∃ t', ctx'.tableResource = some t' ∧
      (staticPartitionKeyName defn = args.fields.headD "" →
        t'.LocalSecondaryIndexes =
          some (appendList t.LocalSecondaryIndexes ⟨args.name, keySchema args⟩) ∧
        t'.GlobalSecondaryIndexes = t.GlobalSecondaryIndexes) ∧
      (staticPartitionKeyName defn ≠ args.fields.headD "" →
        t'.GlobalSecondaryIndexes =
          some (appendList t.GlobalSecondaryIndexes ⟨args.name, keySchema args⟩) ∧
        t'.LocalSecondaryIndexes = t.LocalSecondaryIndexes) := by
  unfold appendSecondaryIndex at h
  simp only [] at h
  cases had : attributeDefinitions args defn ctx with
  | error e => simp only [had] at h; cases h
  | ok ads =>
    simp only [had] at h
    simp only [ht] at h
    rw [keySchema_head] at h
    have hname : (match getPrimaryKey defn with
        | some dir => (getDirectiveArguments dir).fields.headD ""
        | none => "id") = staticPartitionKeyName defn := rfl
    rw [hname] at h
    split at h
    next hcond =>
      cases h
      have heq : staticPartitionKeyName defn = args.fields.headD "" := beq_iff_eq.mp hcond
      exact ⟨_, rfl, fun _ => ⟨rfl, rfl⟩, fun hc => absurd heq hc⟩
    next hcond =>
      cases h
      have hne : ¬ (staticPartitionKeyName defn = args.fields.headD "") := by
        intro hc
        apply hcond
        show (staticPartitionKeyName defn == args.fields.headD "") = true
        rw [hc]
        exact beq_self_eq_true _
      exact ⟨_, rfl, fun hc => absurd hc hne, fun _ => ⟨rfl, rfl⟩⟩

/-- Witness for the amended C2 at the concrete instance (the static
partition name `email` differs from the directive's first field `id`, so a
GSI is appended). -/
theorem c2_secondary_index_classification_witness :
    (c2Ctx.tableResource = some c2Table ∧
     appendSecondaryIndex c2Definition c2SecondaryArgs c2Ctx = .ok c2CtxAfter) ∧
    (∃ t', c2CtxAfter.tableResource = some t' ∧
      (staticPartitionKeyName c2Definition = c2SecondaryArgs.fields.headD "" →
        t'.LocalSecondaryIndexes =
          some (appendList c2Table.LocalSecondaryIndexes ⟨c2SecondaryArgs.name, keySchema c2SecondaryArgs⟩) ∧
        t'.GlobalSecondaryIndexes = c2Table.GlobalSecondaryIndexes) ∧
      (staticPartitionKeyName c2Definition ≠ c2SecondaryArgs.fields.headD "" →
        t'.GlobalSecondaryIndexes =
          some (appendList c2Table.GlobalSecondaryIndexes ⟨c2SecondaryArgs.name, keySchema c2SecondaryArgs⟩) ∧
        t'.LocalSecondaryIndexes = c2Table.LocalSecondaryIndexes)) :=
  ⟨⟨rfl, rfl⟩,
   c2_secondary_index_classification c2Definition c2SecondaryArgs c2Ctx c2CtxAfter c2Table
     rfl rfl⟩

/-- Closed form of the pruning loop of `replacePrimaryKey`: started on a
definition list paired with its own name list, it filters out every
definition named in the key schema (whether or not the branch-condition set
test fires, the result is the same filter). -/
theorem pruneOldPrimaryKey_closed (keys : List KeySchemaEntry) :
    ∀ ds : List AttributeDefinition,
    pruneOldPrimaryKey keys (ds, ds.map (fun ad => ad.AttributeName)) =
      (ds.filter (fun ad => !((keys.map (fun k => k.AttributeName)).contains ad.AttributeName)),
       (ds.map (fun ad => ad.AttributeName)).filter
         (fun n => !((keys.map (fun k => k.AttributeName)).contains n))) := by
  induction keys with
  | nil =>
    intro ds
    simp [pruneOldPrimaryKey]
  | cons k rest ih =>
    intro ds
    have hmap : (ds.map (fun ad => ad.AttributeName)).filter (fun n => n != k.AttributeName) =
        (ds.filter (fun ad => ad.AttributeName != k.AttributeName)).map
          (fun ad => ad.AttributeName) := by
      rw [List.filter_map]
      rfl
    have hstep : pruneOldPrimaryKey (k :: rest) (ds, ds.map (fun ad => ad.AttributeName)) =
        pruneOldPrimaryKey rest
          ((ds.filter (fun ad => ad.AttributeName != k.AttributeName)),
           ((ds.map (fun ad => ad.AttributeName)).filter (fun n => n != k.AttributeName))) := by
      unfold pruneOldPrimaryKey
      rw [List.foldl_cons]
      congr 1
      by_cases hc : ((ds.map (fun ad => ad.AttributeName)).contains k.AttributeName) = true
      · rw [if_pos hc]
      · have hno : ∀ ad ∈ ds, ¬(ad.AttributeName = k.AttributeName) := by
          intro ad had heq
          apply hc
          simp only [List.contains_eq_any_beq, List.any_eq_true]
          exact ⟨ad.AttributeName, List.mem_map_of_mem _ had, by rw [heq]; exact beq_self_eq_true _⟩
        rw [if_neg hc]
        have hall : ∀ ad ∈ ds, (ad.AttributeName != k.AttributeName) = true := by
          intro ad had
          exact bne_iff_ne.mpr (hno ad had)
        have hall2 : ∀ n ∈ ds.map (fun ad => ad.AttributeName), (n != k.AttributeName) = true := by
          intro n hn
          rcases List.mem_map.mp hn with ⟨ad, had, rfl⟩
          exact hall ad had
        rw [List.filter_eq_self.mpr hall, List.filter_eq_self.mpr hall2]
    rw [hstep, hmap, ih]
    simp only [Prod.mk.injEq]
    constructor
    · rw [List.filter_filter]
      apply List.filter_congr
      intro x _
      simp [List.contains_cons, Bool.not_or, Bool.and_comm, bne]
      try rfl
    · have h2 : (ds.map (fun ad => ad.AttributeName)).filter
          (fun n => !((((k :: rest)).map (fun k => k.AttributeName)).contains n)) =
          ((ds.map (fun ad => ad.AttributeName)).filter (fun n => n != k.AttributeName)).filter
            (fun n => !((rest.map (fun k => k.AttributeName)).contains n)) := by
        rw [List.filter_filter]
        apply List.filter_congr
        intro x _
        simp [List.contains_cons, Bool.not_or, Bool.and_comm, bne]
        try rfl
      rw [h2, hmap]

/-- Closed form of the push loop shared by `replacePrimaryKey` and
`appendSecondaryIndex`: the derived attribute definitions whose names are
not in the (fixed) name set are appended, in order. -/
theorem pushNewAttributes_closed (attrs : List AttributeDefinition) (names : List String) :
    ∀ ds : List AttributeDefinition,
    pushNewAttributes attrs ds names =
      ds ++ attrs.filter (fun a => !(names.contains a.AttributeName)) := by
  induction attrs with
  | nil =>
    intro ds
    simp [pushNewAttributes]
  | cons a rest ih =>
    intro ds
    unfold pushNewAttributes
    rw [List.foldl_cons]
    by_cases hc : (names.contains a.AttributeName) = true
    · rw [if_pos hc]
      have := ih ds
      unfold pushNewAttributes at this
      rw [this]
      rw [List.filter_cons_of_neg (by simpa using hc)]
    · rw [if_neg hc]
      have := ih (ds ++ [a])
      unfold pushNewAttributes at this
      rw [this]
      rw [List.filter_cons_of_pos (by simpa using hc)]
      simp

/-- The table produced by a successful `replacePrimaryKey` on table `t`
with derived attribute definitions `ads`: key schema replaced, secondary
indexes untouched, attribute definitions pruned of every old primary key
name and extended by the derived definitions that did not survive the
pruning. -/
def replacedTable (t : TableProperties) (args : KeyArguments)
    (ads : List AttributeDefinition) : TableProperties :=
  { t with
    KeySchema := keySchema args,
    AttributeDefinitions :=
      t.AttributeDefinitions.filter
        (fun ad => !((t.KeySchema.map (fun k => k.AttributeName)).contains ad.AttributeName)) ++
      ads.filter (fun a =>
        !(((t.AttributeDefinitions.map (fun ad => ad.AttributeName)).filter
            (fun n => !((t.KeySchema.map (fun k => k.AttributeName)).contains n))).contains
          a.AttributeName)) }

/-- Characterization of a successful `replacePrimaryKey` in terms of
`replacedTable`. -/
theorem replacePrimaryKey_ok
    (defn : ObjectTypeDefinition) (args : KeyArguments) (ctx ctx' : TransformerContext)
    (t : TableProperties) (ads : List AttributeDefinition)
    (ht : ctx.tableResource = some t)
    (had : attributeDefinitions args defn ctx = .ok ads)
    (h : replacePrimaryKey defn args ctx = .ok ctx') :
    ctx' = { ctx with tableResource := some (replacedTable t args ads) } := by
  unfold replacePrimaryKey at h
  simp only [] at h
  simp only [had, ht] at h
  rw [pruneOldPrimaryKey_closed] at h
  simp only [] at h
  rw [pushNewAttributes_closed] at h
  cases h
  rfl

/-- Concrete instance for C3: the table carries a GSI whose key schema still
references `id` when the primary key is replaced by `email`. -/
def c3Definition : ObjectTypeDefinition :=
  { name := "Test",
    fields := [ ⟨"id", .nonNull (.named "ID"), []⟩,
                ⟨"x", .nonNull (.named "String"), []⟩,
                ⟨"email", .nonNull (.named "String"), []⟩ ],
    directives := [ ⟨"key", { fields := ["email"] }⟩ ] }

/-- The C3 table before primary key replacement: primary key `id`, one GSI
on `[id, x]`. -/
def c3Table : TableProperties :=
  { KeySchema := [⟨"id", "HASH"⟩],
    AttributeDefinitions := [⟨"id", "S"⟩, ⟨"x", "S"⟩],
    GlobalSecondaryIndexes := some [⟨some "byId", [⟨"id", "HASH"⟩, ⟨"x", "RANGE"⟩]⟩],
    LocalSecondaryIndexes := none }

/-- The C3 context before replacement. -/
def c3Ctx : TransformerContext := { baseCtx with tableResource := some c3Table }

/-- The C3 table after `@key(fields: ["email"])` replaces the primary key:
`id` has been pruned from AttributeDefinitions although the GSI still
references it. -/
def c3TableAfter : TableProperties :=
  { KeySchema := [⟨"email", "HASH"⟩],
    AttributeDefinitions := [⟨"x", "S"⟩, ⟨"email", "S"⟩],
    GlobalSecondaryIndexes := some [⟨some "byId", [⟨"id", "HASH"⟩, ⟨"x", "RANGE"⟩]⟩],
    LocalSecondaryIndexes := none }

/-- The C3 context after replacement. -/
def c3CtxAfter : TransformerContext := { baseCtx with tableResource := some c3TableAfter }

/-- Counterexample to C3 as stated: replacing the primary key prunes the old
key attribute `id` from AttributeDefinitions even though a remaining
secondary-index key schema still references `id` — the pruning never
consults secondary-index key schemas. -/
theorem c3_counterexample :
    replacePrimaryKey c3Definition { fields := ["email"] } c3Ctx = .ok c3CtxAfter ∧
    "id" ∈ (c3Table.AttributeDefinitions.map (fun ad => ad.AttributeName)) ∧
    "id" ∈ ((c3TableAfter.GlobalSecondaryIndexes.getD []).map
              (fun i => i.KeySchema.map (fun k => k.AttributeName))).flatten ∧
    "id" ∉ (c3TableAfter.AttributeDefinitions.map (fun ad => ad.AttributeName)) :=
  ⟨rfl, by decide, by decide, by decide⟩

/-- C3 (amended): when an unnamed (primary) `@key` directive is applied to a
type whose table resource exists, the table's existing primary KeySchema is
replaced wholesale by the newly derived key schema, and every old key
attribute named in the old primary KeySchema is pruned from
AttributeDefinitions regardless of whether a secondary-index key schema
still references it; the newly derived key attributes are then appended
unless a same-named definition survived the pruning. -/
theorem c3_primary_key_replacement
    (defn : ObjectTypeDefinition) (args : KeyArguments) (ctx ctx' : TransformerContext)
    (t : TableProperties) (ads : List AttributeDefinition)
    (ht : ctx.tableResource = some t)
    (had : attributeDefinitions args defn ctx = .ok ads)
    (h : replacePrimaryKey defn args ctx = .ok ctx') :
    ctx'.tableResource = some (replacedTable t args ads) ∧
    (replacedTable t args ads).KeySchema = keySchema args ∧
    (replacedTable t args ads).GlobalSecondaryIndexes = t.GlobalSecondaryIndexes ∧
    (replacedTable t args ads).LocalSecondaryIndexes = t.LocalSecondaryIndexes ∧
    (replacedTable t args ads).AttributeDefinitions =
      t.AttributeDefinitions.filter
        (fun ad => !((t.KeySchema.map (fun k => k.AttributeName)).contains ad.AttributeName)) ++
      ads.filter (fun a =>
        !(((t.AttributeDefinitions.map (fun ad => ad.AttributeName)).filter
            (fun n => !((t.KeySchema.map (fun k => k.AttributeName)).contains n))).contains
          a.AttributeName)) := by
  have := replacePrimaryKey_ok defn args ctx ctx' t ads ht had h
  subst this
  exact ⟨rfl, rfl, rfl, rfl, rfl⟩

/-- Witness for the amended C3 at the concrete instance. -/
theorem c3_primary_key_replacement_witness :
    (c3Ctx.tableResource = some c3Table ∧
     attributeDefinitions { fields := ["email"] } c3Definition c3Ctx = .ok [⟨"email", "S"⟩] ∧
     replacePrimaryKey c3Definition { fields := ["email"] } c3Ctx = .ok c3CtxAfter) ∧
    (c3CtxAfter.tableResource = some (replacedTable c3Table { fields := ["email"] } [⟨"email", "S"⟩]) ∧
     (replacedTable c3Table { fields := ["email"] } [⟨"email", "S"⟩]).KeySchema =
       keySchema { fields := ["email"] } ∧
     (replacedTable c3Table { fields := ["email"] } [⟨"email", "S"⟩]).GlobalSecondaryIndexes =
       c3Table.GlobalSecondaryIndexes ∧
     (replacedTable c3Table { fields := ["email"] } [⟨"email", "S"⟩]).LocalSecondaryIndexes =
       c3Table.LocalSecondaryIndexes ∧
     (replacedTable c3Table { fields := ["email"] } [⟨"email", "S"⟩]).AttributeDefinitions =
       c3Table.AttributeDefinitions.filter
         (fun ad => !((c3Table.KeySchema.map (fun k => k.AttributeName)).contains ad.AttributeName)) ++
       ([⟨"email", "S"⟩] : List AttributeDefinition).filter (fun a =>
         !(((c3Table.AttributeDefinitions.map (fun ad => ad.AttributeName)).filter
             (fun n => !((c3Table.KeySchema.map (fun k => k.AttributeName)).contains n))).contains
           a.AttributeName))) :=
  ⟨⟨rfl, rfl, rfl⟩,
   c3_primary_key_replacement c3Definition { fields := ["email"] } c3Ctx c3CtxAfter c3Table
     [⟨"email", "S"⟩] rfl rfl rfl⟩

/-- An appended optional list is the old list (empty when absent) plus the
item. -/
theorem appendList_eq {α : Type} (o : Option (List α)) (item : α) :
    appendList o item = o.getD [] ++ [item] := by
  cases o <;> rfl

/-- Characterization of a successful `appendSecondaryIndex`: the primary key
schema is unchanged, the derived attribute definitions not already present
are appended, and the new index lands either in the local or in the global
secondary indexes (the other side unchanged). -/
theorem appendSecondaryIndex_ok
    (defn : ObjectTypeDefinition) (args : KeyArguments) (ctx ctx' : TransformerContext)
    (t : TableProperties) (ads : List AttributeDefinition)
    (ht : ctx.tableResource = some t)
    (had : attributeDefinitions args defn ctx = .ok ads)
    (h : appendSecondaryIndex defn args ctx = .ok ctx') :
    ∃ upd : TableProperties, ctx'.tableResource = some upd ∧
      upd.KeySchema = t.KeySchema ∧
      upd.AttributeDefinitions =
        t.AttributeDefinitions ++ ads.filter (fun a =>
          !((t.AttributeDefinitions.map (fun ad => ad.AttributeName)).contains a.AttributeName)) ∧
      ((upd.GlobalSecondaryIndexes = t.GlobalSecondaryIndexes ∧
        upd.LocalSecondaryIndexes =
          some (appendList t.LocalSecondaryIndexes ⟨args.name, keySchema args⟩)) ∨
       (upd.LocalSecondaryIndexes = t.LocalSecondaryIndexes ∧
        upd.GlobalSecondaryIndexes =
          some (appendList t.GlobalSecondaryIndexes ⟨args.name, keySchema args⟩))) := by
  unfold appendSecondaryIndex at h
  simp only [] at h
  simp only [had, ht] at h
  rw [pushNewAttributes_closed] at h
  split at h
  · cases h
    exact ⟨_, rfl, rfl, rfl, Or.inl ⟨rfl, rfl⟩⟩
  · cases h
    exact ⟨_, rfl, rfl, rfl, Or.inr ⟨rfl, rfl⟩⟩

/-- The attribute names defined on a table. -/
def attrDefNames (t : TableProperties) : List String :=
  t.AttributeDefinitions.map (fun ad => ad.AttributeName)

/-- The attribute names referenced by the table's secondary-index key
schemas (GSIs and LSIs). -/
def secondaryKeyNames (t : TableProperties) : List String :=
  ((t.GlobalSecondaryIndexes.getD []).map
    (fun i => i.KeySchema.map (fun k => k.AttributeName))).flatten ++
  ((t.LocalSecondaryIndexes.getD []).map
    (fun i => i.KeySchema.map (fun k => k.AttributeName))).flatten

/-- The attribute names referenced by any key schema of the table (primary,
GSI, or LSI). -/
def referencedKeyNames (t : TableProperties) : List String :=
  t.KeySchema.map (fun k => k.AttributeName) ++ secondaryKeyNames t

/-- The attribute-definition well-formedness invariant: exactly one entry
per distinct attribute name referenced by any of the table's key schemas,
and never two entries with the same name. -/
def AttributeDefinitionsInvariant (t : TableProperties) : Prop :=
  (attrDefNames t).Nodup ∧ ∀ n ∈ referencedKeyNames t, n ∈ attrDefNames t

instance (t : TableProperties) : Decidable (AttributeDefinitionsInvariant t) := by
  unfold AttributeDefinitionsInvariant
  infer_instance

/-- Names pushed past a fixed name set stay disjoint from it and keep the
whole list duplicate-free. -/
theorem pushed_names_nodup (ads : List AttributeDefinition) (base : List String)
    (hbase : base.Nodup) (hads : (ads.map (fun a => a.AttributeName)).Nodup) :
    (base ++ (ads.filter (fun a => !(base.contains a.AttributeName))).map
      (fun a => a.AttributeName)).Nodup := by
  rw [List.nodup_append]
  refine ⟨hbase, ?_, ?_⟩
  · have : (ads.filter (fun a => !(base.contains a.AttributeName))).map
        (fun a => a.AttributeName) =
        (ads.map (fun a => a.AttributeName)).filter (fun n => !(base.contains n)) := by
      rw [List.filter_map]
      rfl
    rw [this]
    exact hads.filter _
  · intro x hx hx2
    rcases List.mem_map.mp hx2 with ⟨a, ha, rfl⟩
    have := (List.mem_filter.mp ha).2
    simp only [Bool.not_eq_true'] at this
    rw [List.contains_eq_any_beq] at this
    have hmem : a.AttributeName ∈ base := hx
    have : base.any (fun x => a.AttributeName == x) = true :=
      List.any_eq_true.mpr ⟨a.AttributeName, hmem, beq_self_eq_true _⟩
    simp_all

/-- Every derived attribute name is present after the push loop. -/
theorem pushed_names_cover (ads : List AttributeDefinition) (base : List String)
    (n : String) (hn : n ∈ ads.map (fun a => a.AttributeName)) :
    n ∈ base ++ (ads.filter (fun a => !(base.contains a.AttributeName))).map
      (fun a => a.AttributeName) := by
  by_cases hb : n ∈ base
  · exact List.mem_append_left _ hb
  · apply List.mem_append_right
    rcases List.mem_map.mp hn with ⟨a, ha, rfl⟩
    apply List.mem_map_of_mem
    apply List.mem_filter.mpr
    refine ⟨ha, ?_⟩
    simp only [Bool.not_eq_true']
    rw [List.contains_eq_any_beq]
    rw [Bool.eq_false_iff]
    intro hany
    rcases List.any_eq_true.mp hany with ⟨x, hx, hbeq⟩
    exact hb ((beq_iff_eq.mp hbeq) ▸ hx)

/-- `List.contains` agrees with membership for strings. -/
theorem string_contains_iff (l : List String) (x : String) :
    l.contains x = true ↔ x ∈ l := by
  rw [List.contains_eq_any_beq, List.any_eq_true]
  constructor
  · rintro ⟨y, hy, hbeq⟩
    exact (beq_iff_eq.mp hbeq) ▸ hy
  · intro hx
    exact ⟨x, hx, beq_self_eq_true x⟩

/-- Concrete instance for C5: a `@key` that lists the same field twice
passes validation. -/
def c5Definition : ObjectTypeDefinition :=
  { name := "Test",
    fields := [ ⟨"a", .nonNull (.named "String"), []⟩ ],
    directives := [ ⟨"key", { fields := ["a", "a"] }⟩ ] }

/-- The C5 table before the directive (the default `id` key). -/
def c5Table : TableProperties :=
  { KeySchema := [⟨"id", "HASH"⟩], AttributeDefinitions := [⟨"id", "S"⟩] }

/-- The C5 context before the directive. -/
def c5Ctx : TransformerContext := { baseCtx with tableResource := some c5Table }

/-- The C5 table after `@key(fields: ["a", "a"])` replaces the primary key:
AttributeDefinitions now contains two entries named `a`. -/
def c5TableAfter : TableProperties :=
  { KeySchema := [⟨"a", "HASH"⟩, ⟨"a", "RANGE"⟩],
    AttributeDefinitions := [⟨"a", "S"⟩, ⟨"a", "S"⟩] }

/-- The C5 context after the directive. -/
def c5CtxAfter : TransformerContext := { baseCtx with tableResource := some c5TableAfter }

/-- Counterexample to C5 as stated: starting from a table satisfying the
invariant, a validated `@key(fields: ["a", "a"])` produces duplicate
AttributeDefinitions entries (the push loop checks names against a set
computed before the loop and never updated). -/
theorem c5_counterexample :
    AttributeDefinitionsInvariant c5Table ∧
    validate c5Definition 0 c5Ctx = .ok () ∧
    replacePrimaryKey c5Definition { fields := ["a", "a"] } c5Ctx = .ok c5CtxAfter ∧
    ¬ AttributeDefinitionsInvariant c5TableAfter :=
  ⟨by decide, rfl, rfl, by decide⟩

/-- C5 (amended): after an application of a `@key` directive (primary
replacement or secondary append) to a table satisfying the invariant, the
invariant holds again provided the derived attribute-definition names are
pairwise distinct (the directive does not produce duplicate names, as
`fields: ["a","a"]` would), and — for a primary replacement — every old
primary-key attribute still referenced by a secondary-index key schema is
among the newly derived attribute names. -/
theorem c5_invariant_preservation
    (defn : ObjectTypeDefinition) (args : KeyArguments) (ctx : TransformerContext)
    (t : TableProperties) (ads : List AttributeDefinition)
    (ht : ctx.tableResource = some t)
    (hinv : AttributeDefinitionsInvariant t)
    (had : attributeDefinitions args defn ctx = .ok ads)
    (hnodup : (ads.map (fun a => a.AttributeName)).Nodup) :
    (∀ ctx' t', appendSecondaryIndex defn args ctx = .ok ctx' →
       ctx'.tableResource = some t' → AttributeDefinitionsInvariant t') ∧
    ((∀ n ∈ t.KeySchema.map (fun k => k.AttributeName),
        n ∈ secondaryKeyNames t → n ∈ ads.map (fun a => a.AttributeName)) →
      ∀ ctx' t', replacePrimaryKey defn args ctx = .ok ctx' →
        ctx'.tableResource = some t' → AttributeDefinitionsInvariant t') := by
  have hnames : ads.map (fun a => a.AttributeName) =
      (keySchema args).map (fun k => k.AttributeName) := attributeDefinitions_names had
  constructor
  · intro ctx' t' h hres
    rcases appendSecondaryIndex_ok defn args ctx ctx' t ads ht had h with
      ⟨upd, hupd, hks, hdefs, hcase⟩
    rw [hres] at hupd
    cases hupd
    have h1 : attrDefNames t' = attrDefNames t ++
        (ads.filter (fun a => !((attrDefNames t).contains a.AttributeName))).map
          (fun a => a.AttributeName) := by
      unfold attrDefNames
      rw [hdefs, List.map_append]
    have hsec : ∀ m, m ∈ secondaryKeyNames t' ↔
        m ∈ secondaryKeyNames t ∨ m ∈ (keySchema args).map (fun k => k.AttributeName) := by
      intro m
      rcases hcase with ⟨hg, hl⟩ | ⟨hl, hg⟩
      · unfold secondaryKeyNames
        rw [hg, hl, Option.getD_some, appendList_eq]
        rw [List.map_append, List.flatten_append]
        simp only [List.map_cons, List.map_nil, List.flatten_cons, List.flatten_nil,
          List.append_nil]
        rw [List.mem_append, List.mem_append, List.mem_append]
        tauto
      · unfold secondaryKeyNames
        rw [hg, hl, Option.getD_some, appendList_eq]
        rw [List.map_append, List.flatten_append]
        simp only [List.map_cons, List.map_nil, List.flatten_cons, List.flatten_nil,
          List.append_nil]
        rw [List.mem_append, List.mem_append, List.mem_append]
        tauto
    constructor
    · rw [h1]
      exact pushed_names_nodup ads (attrDefNames t) hinv.1 hnodup
    · intro n hn
      unfold referencedKeyNames at hn
      rw [hks] at hn
      rcases List.mem_append.mp hn with hp | hs
      · have := hinv.2 n (List.mem_append_left _ hp)
        rw [h1]
        exact List.mem_append_left _ this
      · rcases (hsec n).mp hs with hold | hnew
        · have := hinv.2 n (List.mem_append_right _ hold)
          rw [h1]
          exact List.mem_append_left _ this
        · rw [h1]
          exact pushed_names_cover ads (attrDefNames t) n (hnames ▸ hnew)
  · intro hold ctx' t' h hres
    have hctx := replacePrimaryKey_ok defn args ctx ctx' t ads ht had h
    subst hctx
    simp only [] at hres
    cases hres
    have hprunedmap : (t.AttributeDefinitions.filter
        (fun ad => !((t.KeySchema.map (fun k => k.AttributeName)).contains ad.AttributeName))).map
          (fun ad => ad.AttributeName) =
        (t.AttributeDefinitions.map (fun ad => ad.AttributeName)).filter
          (fun n => !((t.KeySchema.map (fun k => k.AttributeName)).contains n)) := by
      rw [List.filter_map]
      rfl
    have h1 : attrDefNames (replacedTable t args ads) =
        ((attrDefNames t).filter
          (fun n => !((t.KeySchema.map (fun k => k.AttributeName)).contains n))) ++
        (ads.filter (fun a =>
          !(((attrDefNames t).filter
              (fun n => !((t.KeySchema.map (fun k => k.AttributeName)).contains n))).contains
            a.AttributeName))).map (fun a => a.AttributeName) := by
      unfold attrDefNames replacedTable
      rw [List.map_append, hprunedmap]
    have hsecsame : secondaryKeyNames (replacedTable t args ads) = secondaryKeyNames t := rfl
    constructor
    · rw [h1]
      exact pushed_names_nodup ads _ (hinv.1.filter _) hnodup
    · intro n hn
      unfold referencedKeyNames at hn
      rw [hsecsame] at hn
      have hkeys : (replacedTable t args ads).KeySchema = keySchema args := rfl
      rw [hkeys] at hn
      rcases List.mem_append.mp hn with hp | hs
      · rw [h1]
        exact pushed_names_cover ads _ n (hnames ▸ hp)
      · by_cases hb : n ∈ t.KeySchema.map (fun k => k.AttributeName)
        · rw [h1]
          exact pushed_names_cover ads _ n (hold n hb hs)
        · have hmem : n ∈ attrDefNames t := hinv.2 n (List.mem_append_right _ hs)
          rw [h1]
          apply List.mem_append_left
          apply List.mem_filter.mpr
          refine ⟨hmem, ?_⟩
          simp only [Bool.not_eq_true']
          rw [Bool.eq_false_iff]
          intro hc
          exact hb ((string_contains_iff _ _).mp hc)

/-- Witness for the amended C5 at the concrete named key `["id", "x"]` on a
fresh `id`-keyed table. -/
theorem c5_invariant_preservation_witness :
    (c10Ctx.tableResource = some c10Table ∧
     AttributeDefinitionsInvariant c10Table ∧
     attributeDefinitions c10Args c10Definition c10Ctx = .ok [⟨"id", "S"⟩, ⟨"x", "S"⟩] ∧
     (([⟨"id", "S"⟩, ⟨"x", "S"⟩] : List AttributeDefinition).map
        (fun a => a.AttributeName)).Nodup) ∧
    ((∀ ctx' t', appendSecondaryIndex c10Definition c10Args c10Ctx = .ok ctx' →
        ctx'.tableResource = some t' → AttributeDefinitionsInvariant t') ∧
     ((∀ n ∈ c10Table.KeySchema.map (fun k => k.AttributeName),
         n ∈ secondaryKeyNames c10Table →
         n ∈ ([⟨"id", "S"⟩, ⟨"x", "S"⟩] : List AttributeDefinition).map
           (fun a => a.AttributeName)) →
       ∀ ctx' t', replacePrimaryKey c10Definition c10Args c10Ctx = .ok ctx' →
         ctx'.tableResource = some t' → AttributeDefinitionsInvariant t')) :=
  ⟨⟨rfl, by decide, rfl, by decide⟩,
   c5_invariant_preservation c10Definition c10Args c10Ctx c10Table
     [⟨"id", "S"⟩, ⟨"x", "S"⟩] rfl (by decide) rfl (by decide)⟩

/-- Concrete instance for C8: a two-field primary `@key` on a type with a
list resolver. -/
def c8Args : KeyArguments := { fields := ["email", "kind"] }

/-- The C8 type definition. -/
def c8Definition : ObjectTypeDefinition :=
  { name := "Test",
    fields := [ ⟨"email", .nonNull (.named "String"), []⟩,
                ⟨"kind", .nonNull (.named "Int"), []⟩ ],
    directives := [ ⟨"key", c8Args⟩ ] }

/-- The C8 list resolver. -/
def c8ListResolver : Resolver :=
  { fieldName := "listTests", requestMappingTemplate := "tmpl" }

/-- The C8 Query type with the list field. -/
def c8Query : ObjectTypeDefinition :=
  { name := "Query",
    fields := [ ⟨"listTests", .named "ModelTestConnection",
                 [⟨"filter", .named "ModelTestFilterInput"⟩]⟩ ] }

/-- The C8 context before the directive. -/
def c8Ctx : TransformerContext :=
  { queryType := c8Query, listResolver := some c8ListResolver }

/-- The C8 Query type after `updateListField`: the prepended `email`
argument is a plain (nullable) `String`, not a non-null type. -/
def c8QueryAfter : ObjectTypeDefinition :=
  { name := "Query",
    fields := [ ⟨"listTests", .named "ModelTestConnection",
                 [ ⟨"email", .named "String"⟩,
                   ⟨"kind", .named "ModelIntKeyConditionInput"⟩,
                   ⟨"filter", .named "ModelTestFilterInput"⟩ ]⟩ ] }

/-- The C8 context after the directive. -/
def c8CtxAfter : TransformerContext :=
  { queryType := c8QueryAfter, listResolver := some c8ListResolver }

/-- Counterexample to C8 as stated: rewriting the list field for
`@key(fields: ["email", "kind"])` prepends `email` as a plain nullable
`String` argument — not the required (non-null) argument the claim
demands for non-final primary-key fields. -/
theorem c8_counterexample :
    updateListField c8Definition 0 c8Ctx = (none, c8CtxAfter) ∧
    (c8QueryAfter.fields.headD ⟨"", .named "", []⟩).arguments.headD ⟨"", .named ""⟩ =
      ⟨"email", .named "String"⟩ ∧
    isNonNullType (.named "String") = false :=
  ⟨rfl, rfl, rfl⟩

/-- The argument `updateListField` derives for key field index `i` (total
description, defined for indices whose field lookup succeeds): the final
field of a multi-field key becomes a key-condition input of its base type,
every other field a plain (nullable) argument of its base type. -/
def listKeyArgumentSpec (definition : ObjectTypeDefinition) (args : KeyArguments)
    (i : Nat) : InputValueDefinition :=
  let keyAttributeName := args.fields.getD i ""
  let base :=
    match findField definition keyAttributeName with
    | some f => getBaseType f.type
    | none => ""
  if i == args.fields.length - 1 && args.fields.length != 1 then
    makeInputValueDefinition keyAttributeName
      (makeNamedType (ModelResourceIDs.ModelKeyConditionInputTypeName base))
  else
    makeInputValueDefinition keyAttributeName (makeNamedType base)

/-- When the field lookup succeeds, `listKeyArgument` returns the total
description. -/
theorem listKeyArgument_spec (defn : ObjectTypeDefinition) (args : KeyArguments)
    (i : Nat) (f : FieldDefinition)
    (hf : findField defn (args.fields.getD i "") = some f) :
    listKeyArgument defn args i = .ok (listKeyArgumentSpec defn args i) := by
  unfold listKeyArgument listKeyArgumentSpec
  simp only [] at *
  simp only [hf]
  split <;> rfl

/-- Closed form of the downward prepend loop of `updateListField`: when
every key field lookup succeeds, the derived arguments for indices
`0..k-1` end up in index order in front of the accumulator. -/
theorem prependKeyArguments_closed (defn : ObjectTypeDefinition) (args : KeyArguments)
    (hall : ∀ i, i < args.fields.length →
      (findField defn (args.fields.getD i "")).isSome = true) :
    ∀ k, k ≤ args.fields.length → ∀ acc,
    prependKeyArguments defn args (List.range k).reverse acc =
      .ok ((List.range k).map (listKeyArgumentSpec defn args) ++ acc) := by
  intro k
  induction k with
  | zero =>
    intro _ acc
    simp [prependKeyArguments]
  | succ k ih =>
    intro hk acc
    rw [List.range_succ, List.reverse_append]
    simp only [List.reverse_cons, List.reverse_nil, List.nil_append, List.singleton_append]
    have hf := hall k (by omega)
    rcases Option.isSome_iff_exists.mp hf with ⟨f, hf2⟩
    unfold prependKeyArguments
    rw [listKeyArgument_spec defn args k f hf2]
    simp only []
    rw [ih (by omega) (listKeyArgumentSpec defn args k :: acc)]
    simp

/-- A context with its Query type replaced. -/
def withQueryType (ctx : TransformerContext) (q : ObjectTypeDefinition) :
    TransformerContext :=
  { ctx with queryType := q }

/-- The Query type with one field's arguments replaced (the rewrite step of
`updateGetField` / `updateListField`). -/
def replaceFieldArguments (q : ObjectTypeDefinition) (fld : FieldDefinition)
    (newArgs : List InputValueDefinition) : ObjectTypeDefinition :=
  { q with fields := q.fields.map (fun f =>
      if f.name == fld.name then { fld with arguments := newArgs } else f) }

/-- C8 (amended): when a primary `@key` directive is applied and the type's
list resolver resource exists, the list query field's arguments are
rewritten by prepending, for each primary-key field except the final one, an
optional (nullable) scalar argument of the field's base type — not a
required one — and for the final field a key-condition input argument
derived from its base scalar when the key has at least 2 fields, or a plain
scalar argument when it has exactly one field. -/
theorem c8_list_field_arguments
    (defn : ObjectTypeDefinition) (d : Nat) (ctx : TransformerContext)
    (r : Resolver) (listField : FieldDefinition) (args : KeyArguments)
    (hargs : getDirectiveArguments (directiveAt defn d) = args)
    (hlr : ctx.listResolver = some r)
    (hpk : isPrimaryKey (directiveAt defn d) = true)
    (hfind : ctx.queryType.fields.find? (fun f => f.name == r.fieldName) = some listField)
    (hall : ∀ i, i < args.fields.length →
      (findField defn (args.fields.getD i "")).isSome = true) :
    updateListField defn d ctx =
      (none, withQueryType ctx (replaceFieldArguments ctx.queryType listField
        ((List.range args.fields.length).map (listKeyArgumentSpec defn args) ++
          listField.arguments))) ∧
    (∀ i, i + 1 < args.fields.length →
      (listKeyArgumentSpec defn args i).type = makeNamedType
        (match findField defn (args.fields.getD i "") with
         | some f => getBaseType f.type
         | none => "") ∧
      isNonNullType (listKeyArgumentSpec defn args i).type = false) ∧
    (∀ i, i + 1 = args.fields.length → args.fields.length ≠ 1 →
      (listKeyArgumentSpec defn args i).type = makeNamedType
        (ModelResourceIDs.ModelKeyConditionInputTypeName
          (match findField defn (args.fields.getD i "") with
           | some f => getBaseType f.type
           | none => ""))) ∧
    (args.fields.length = 1 →
      (listKeyArgumentSpec defn args 0).type = makeNamedType
        (match findField defn (args.fields.getD 0 "") with
         | some f => getBaseType f.type
         | none => "")) := by
  refine ⟨?_, ?_, ?_, ?_⟩
  · unfold updateListField
    rw [hlr]
    simp only [hpk, if_true, hfind, hargs]
    rw [prependKeyArguments_closed defn args hall args.fields.length (by omega)
      listField.arguments]
    simp only []
    rw [← hlr]
    rfl
  · intro i hi
    unfold listKeyArgumentSpec
    have hcond : (i == args.fields.length - 1 && args.fields.length != 1) = false := by
      have : (i == args.fields.length - 1) = false := by
        rw [beq_eq_false_iff_ne]
        omega
      simp [this]
    rw [if_neg (by simp [hcond])]
    exact ⟨rfl, rfl⟩
  · intro i hi h1
    unfold listKeyArgumentSpec
    have hcond : (i == args.fields.length - 1 && args.fields.length != 1) = true := by
      have h2 : i = args.fields.length - 1 := by omega
      simp [h2, h1]
    rw [if_pos hcond]
    rfl
  · intro h1
    unfold listKeyArgumentSpec
    have hcond : (0 == args.fields.length - 1 && args.fields.length != 1) = false := by
      simp [h1]
    rw [if_neg (by simp [hcond])]
    rfl

/-- The C8 list field before rewriting. -/
def c8ListField : FieldDefinition :=
  ⟨"listTests", .named "ModelTestConnection", [⟨"filter", .named "ModelTestFilterInput"⟩]⟩

/-- Witness for the amended C8 at the concrete two-field key. -/
theorem c8_list_field_arguments_witness :
    (getDirectiveArguments (directiveAt c8Definition 0) = c8Args ∧
     c8Ctx.listResolver = some c8ListResolver ∧
     isPrimaryKey (directiveAt c8Definition 0) = true ∧
     c8Ctx.queryType.fields.find? (fun f => f.name == c8ListResolver.fieldName) =
       some c8ListField ∧
     (∀ i, i < c8Args.fields.length →
       (findField c8Definition (c8Args.fields.getD i "")).isSome = true)) ∧
    (updateListField c8Definition 0 c8Ctx =
      (none, withQueryType c8Ctx (replaceFieldArguments c8Ctx.queryType c8ListField
        ((List.range c8Args.fields.length).map (listKeyArgumentSpec c8Definition c8Args) ++
          c8ListField.arguments))) ∧
    (∀ i, i + 1 < c8Args.fields.length →
      (listKeyArgumentSpec c8Definition c8Args i).type = makeNamedType
        (match findField c8Definition (c8Args.fields.getD i "") with
         | some f => getBaseType f.type
         | none => "") ∧
      isNonNullType (listKeyArgumentSpec c8Definition c8Args i).type = false) ∧
    (∀ i, i + 1 = c8Args.fields.length → c8Args.fields.length ≠ 1 →
      (listKeyArgumentSpec c8Definition c8Args i).type = makeNamedType
        (ModelResourceIDs.ModelKeyConditionInputTypeName
          (match findField c8Definition (c8Args.fields.getD i "") with
           | some f => getBaseType f.type
           | none => ""))) ∧
    (c8Args.fields.length = 1 →
      (listKeyArgumentSpec c8Definition c8Args 0).type = makeNamedType
        (match findField c8Definition (c8Args.fields.getD 0 "") with
         | some f => getBaseType f.type
         | none => ""))) :=
  ⟨⟨rfl, rfl, rfl, rfl, by decide⟩,
   c8_list_field_arguments c8Definition 0 c8Ctx c8ListResolver c8ListField c8Args
     rfl rfl rfl rfl (by decide)⟩

/-- With a zero-length field list, `attributeDefinitions` throws (the
JavaScript `TypeError` from `fieldMap.get(args.fields[0]).type` with
`args.fields[0]` being `undefined`). -/
theorem attributeDefinitions_nil (args : KeyArguments) (defn : ObjectTypeDefinition)
    (ctx : TransformerContext) (h : args.fields = []) :
    attributeDefinitions args defn ctx = .error .fieldAccessError := by
  unfold attributeDefinitions
  rw [h]
  rfl

/-- C4: every `@key` application that fails a validation check — a
non-existent, nullable or non-scalar field, a duplicate primary key, a
duplicate name, a `queryField` on a primary key (all raised by `validate`),
or a zero-length field list (raised while deriving the attribute
definitions) — raises its error before any mutation for that directive, so
the compilation context is returned exactly as it was. -/
theorem c4_validation_before_mutation
    (defn : ObjectTypeDefinition) (d : Nat) (ctx : TransformerContext)
    (h : (∃ e, validate defn d ctx = .error e) ∨
         (getDirectiveArguments (directiveAt defn d)).fields = []) :
    (objectApply defn d ctx).1.isSome = true ∧ (objectApply defn d ctx).2 = ctx := by
  rcases h with ⟨e, he⟩ | hnil
  · unfold objectApply
    rw [he]
    exact ⟨rfl, rfl⟩
  · cases hv : validate defn d ctx with
    | error e =>
      unfold objectApply
      rw [hv]
      exact ⟨rfl, rfl⟩
    | ok u =>
      cases u
      have hnilad := attributeDefinitions_nil (getDirectiveArguments (directiveAt defn d))
        defn ctx hnil
      have hui : updateIndexStructures defn d ctx = (some .fieldAccessError, ctx) := by
        unfold updateIndexStructures
        by_cases hp : isPrimaryKey (directiveAt defn d) = true
        · rw [if_pos hp]
          have hr : replacePrimaryKey defn (getDirectiveArguments (directiveAt defn d)) ctx =
              .error .fieldAccessError := by
            unfold replacePrimaryKey
            simp only [hnilad]
          rw [hr]
        · rw [if_neg hp]
          have hr : appendSecondaryIndex defn (getDirectiveArguments (directiveAt defn d)) ctx =
              .error .fieldAccessError := by
            unfold appendSecondaryIndex
            simp only [hnilad]
          rw [hr]
      unfold objectApply
      rw [hv, hui]
      exact ⟨rfl, rfl⟩

/-- Concrete instance for C4: a `@key` directive with a zero-length field
list (validation passes the field loop vacuously, the error is raised while
deriving attribute definitions, before any mutation). -/
def c4Definition : ObjectTypeDefinition :=
  { name := "Test",
    fields := [ ⟨"a", .nonNull (.named "String"), []⟩ ],
    directives := [ ⟨"key", { fields := [] }⟩ ] }

/-- Witness for C4 at the concrete zero-length field list. -/
theorem c4_validation_before_mutation_witness :
    (getDirectiveArguments (directiveAt c4Definition 0)).fields = [] ∧
    (objectApply c4Definition 0 baseCtx).1.isSome = true ∧
    (objectApply c4Definition 0 baseCtx).2 = baseCtx :=
  ⟨rfl,
   c4_validation_before_mutation c4Definition 0 baseCtx (Or.inr rfl)⟩

/-- Well-formedness of a reference map: one entry per key (a JavaScript
object cannot hold a key twice). -/
def WFRefMap (m : ReferenceMap) : Prop := (m.map Prod.fst).Nodup

instance (m : ReferenceMap) : Decidable (WFRefMap m) := by
  unfold WFRefMap
  infer_instance

/-- Reading a cons cell of a reference map. -/
theorem findRM_cons (e : String × List (List String)) (m : ReferenceMap) (k : String) :
    findRM (e :: m) k = if e.1 == k then e.2 else findRM m k := by
  unfold findRM
  cases he : (e.1 == k) <;> simp [List.find?_cons, he]

/-- A key absent from a reference map reads as the empty path list. -/
theorem findRM_not_mem (m : ReferenceMap) (k : String) (h : k ∉ m.map Prod.fst) :
    findRM m k = [] := by
  unfold findRM
  rw [List.find?_eq_none.mpr]
  intro x hx
  rw [Bool.not_eq_true, beq_eq_false_iff_ne]
  intro hc
  exact h (hc ▸ List.mem_map_of_mem Prod.fst hx)

/-- Reading an appended reference map when the left part has the key. -/
theorem findRM_append_left (l₁ l₂ : ReferenceMap) (k : String)
    (h : l₁.any (fun p => p.1 == k) = true) :
    findRM (l₁ ++ l₂) k = findRM l₁ k := by
  unfold findRM
  rw [List.find?_append]
  rcases List.any_eq_true.mp h with ⟨x, hx, hbeq⟩
  have hsome : (List.find? (fun p => p.1 == k) l₁).isSome = true :=
    List.find?_isSome.mpr ⟨x, hx, hbeq⟩
  rcases Option.isSome_iff_exists.mp hsome with ⟨y, hy⟩
  rw [hy]
  rfl

/-- Reading an appended reference map when the left part lacks the key. -/
theorem findRM_append_right (l₁ l₂ : ReferenceMap) (k : String)
    (h : l₁.any (fun p => p.1 == k) = false) :
    findRM (l₁ ++ l₂) k = findRM l₂ k := by
  unfold findRM
  rw [List.find?_append]
  rw [List.find?_eq_none.mpr]
  · rfl
  · intro x hx
    rw [Bool.not_eq_true]
    by_contra hc
    rw [Bool.not_eq_false] at hc
    have hany : l₁.any (fun p => p.1 == k) = true := List.any_eq_true.mpr ⟨x, hx, hc⟩
    rw [h] at hany
    cases hany

/-- Closed form of `mergeReferenceMaps` for a well-formed right operand:
every entry of `a` receives `b`'s paths for its key appended, and the
entries of `b` whose keys are new are appended behind. -/
theorem mergeReferenceMaps_closed (b : ReferenceMap) (hb : WFRefMap b) :
    ∀ a : ReferenceMap,
    mergeReferenceMaps a b =
      a.map (fun e => (e.1, e.2 ++ findRM b e.1)) ++
      b.filter (fun e => !(a.any (fun p => p.1 == e.1))) := by
  induction b with
  | nil =>
    intro a
    unfold mergeReferenceMaps
    simp only [List.foldl_nil, List.filter_nil, List.append_nil]
    have hid : ∀ e ∈ a, (e.1, e.2 ++ findRM ([] : ReferenceMap) e.1) = e := by
      intro e _
      unfold findRM
      simp
    rw [List.map_congr_left hid, List.map_id']
  | cons e b ih =>
    intro a
    have hwf := List.nodup_cons.mp hb
    have he1 : e.1 ∉ b.map Prod.fst := hwf.1
    have hb' : WFRefMap b := hwf.2
    have hfb : findRM b e.1 = [] := findRM_not_mem b e.1 he1
    have hcons : mergeReferenceMaps a (e :: b) =
        mergeReferenceMaps (if a.any (fun p => p.1 == e.1) then
          a.map (fun p => if p.1 == e.1 then (p.1, p.2 ++ e.2) else p) else a ++ [e]) b := by
      unfold mergeReferenceMaps
      rw [List.foldl_cons]
    rw [hcons]
    by_cases hk : a.any (fun p => p.1 == e.1) = true
    · rw [if_pos hk]
      rw [ih hb']
      have hfst : ∀ p : String × List (List String),
          ((if p.1 == e.1 then (p.1, p.2 ++ e.2) else p) : String × List (List String)).1 =
            p.1 := by
        intro p
        by_cases hp : (p.1 == e.1) = true
        · rw [if_pos hp]
        · rw [if_neg hp]
      congr 1
      · rw [List.map_map]
        apply List.map_congr_left
        intro p _
        simp only [Function.comp]
        by_cases hp : (p.1 == e.1) = true
        · have hpe : p.1 = e.1 := beq_iff_eq.mp hp
          rw [if_pos hp, findRM_cons, if_pos (by rw [hpe]; exact beq_self_eq_true _)]
          simp only []
          rw [hpe, hfb]
          simp
        · have hpe : ¬ (p.1 = e.1) := by
            rw [Bool.not_eq_true, beq_eq_false_iff_ne] at hp
            exact hp
          rw [if_neg hp, findRM_cons, if_neg ?_]
          rw [Bool.not_eq_true, beq_eq_false_iff_ne]
          intro hc
          exact hpe hc.symm
      · rw [List.filter_cons_of_neg (by rw [hk]; simp)]
        apply List.filter_congr
        intro x _
        congr 1
        rw [List.any_map]
        have hfun : ((fun p => p.1 == x.1) ∘
            (fun p => if p.1 == e.1 then (p.1, p.2 ++ e.2) else p) :
              String × List (List String) → Bool) = fun p => p.1 == x.1 := by
          funext p
          simp only [Function.comp]
          rw [hfst p]
        rw [hfun]
    · rw [if_neg hk]
      rw [ih hb']
      have hkfalse : a.any (fun p => p.1 == e.1) = false := by
        rw [Bool.eq_false_iff]
        exact hk
      rw [List.map_append]
      have hmape : List.map (fun p => (p.1, p.2 ++ findRM b p.1)) [e] = [e] := by
        simp only [List.map_cons, List.map_nil]
        rw [hfb]
        simp
      rw [hmape]
      have hanyall : ∀ p ∈ a, (p.1 == e.1) = false := by
        intro p hp
        by_contra hc
        rw [Bool.not_eq_false] at hc
        have hco : a.any (fun p => p.1 == e.1) = true := List.any_eq_true.mpr ⟨p, hp, hc⟩
        rw [hkfalse] at hco
        cases hco
      have hmapa : a.map (fun p => (p.1, p.2 ++ findRM b p.1)) =
          a.map (fun p => (p.1, p.2 ++ findRM (e :: b) p.1)) := by
        apply List.map_congr_left
        intro p hp
        rw [findRM_cons, if_neg ?_]
        rw [Bool.not_eq_true, beq_eq_false_iff_ne]
        intro hc
        exact (beq_eq_false_iff_ne.mp (hanyall p hp)) hc.symm
      rw [hmapa]
      have hfilterb : b.filter (fun x => !((a ++ [e]).any (fun p => p.1 == x.1))) =
          b.filter (fun x => !(a.any (fun p => p.1 == x.1))) := by
        apply List.filter_congr
        intro x hx
        congr 1
        rw [List.any_append]
        have hone : [e].any (fun p => p.1 == x.1) = false := by
          simp only [List.any_cons, List.any_nil, Bool.or_false]
          rw [beq_eq_false_iff_ne]
          intro hc
          exact he1 (hc ▸ List.mem_map_of_mem Prod.fst hx)
        rw [hone, Bool.or_false]
      rw [hfilterb]
      rw [List.filter_cons_of_pos (by rw [hkfalse]; rfl)]
      rw [List.append_assoc]
      rfl

/-- Key presence as a boolean `any` agrees with membership in the key
list. -/
theorem anyKey_iff (m : ReferenceMap) (k : String) :
    m.any (fun p => p.1 == k) = true ↔ k ∈ m.map Prod.fst := by
  rw [List.any_eq_true]
  constructor
  · rintro ⟨p, hp, hbeq⟩
    exact (beq_iff_eq.mp hbeq) ▸ List.mem_map_of_mem Prod.fst hp
  · intro hk
    rcases List.mem_map.mp hk with ⟨p, hp, rfl⟩
    exact ⟨p, hp, beq_self_eq_true _⟩

/-- Reading the value-extended copy of `a` when `a` has the key. -/
theorem findRM_map_add (b : ReferenceMap) (k : String) :
    ∀ a : ReferenceMap, a.any (fun p => p.1 == k) = true →
    findRM (a.map (fun e => (e.1, e.2 ++ findRM b e.1))) k = findRM a k ++ findRM b k := by
  intro a
  induction a with
  | nil => intro h; cases h
  | cons p a ih =>
    intro h
    simp only [List.map_cons]
    rw [findRM_cons, findRM_cons]
    by_cases hp : (p.1 == k) = true
    · rw [if_pos hp, if_pos hp]
      rw [beq_iff_eq.mp hp]
    · have hp' : (p.1 == k) = false := by rw [Bool.eq_false_iff]; exact hp
      rw [if_neg hp, if_neg hp]
      apply ih
      simp only [List.any_cons, hp', Bool.false_or] at h
      exact h

/-- Filtering out entries whose keys live in `a` does not change the value
read at a key absent from `a`. -/
theorem findRM_filter_not_in (a b : ReferenceMap) (k : String)
    (hk : a.any (fun p => p.1 == k) = false) :
    findRM (b.filter (fun e => !(a.any (fun p => p.1 == e.1)))) k = findRM b k := by
  induction b with
  | nil => rfl
  | cons e b ih =>
    by_cases he : (e.1 == k) = true
    · have hek : e.1 = k := beq_iff_eq.mp he
      rw [List.filter_cons_of_pos (by rw [hek, hk]; rfl)]
      rw [findRM_cons, findRM_cons, if_pos he, if_pos he]
    · by_cases hs : (!(a.any (fun p => p.1 == e.1))) = true
      · rw [List.filter_cons, if_pos hs, findRM_cons, findRM_cons, if_neg he, if_neg he]
        exact ih
      · rw [List.filter_cons, if_neg hs, findRM_cons, if_neg he]
        exact ih

/-- Key search in a key-disjoint filtering of `b` agrees with key search in
`b` itself, for keys absent from `a`. -/
theorem any_filter_key (a b : ReferenceMap) (x : String)
    (h : a.any (fun p => p.1 == x) = false) :
    (b.filter (fun e => !(a.any (fun p => p.1 == e.1)))).any (fun p => p.1 == x) =
    b.any (fun p => p.1 == x) := by
  induction b with
  | nil => rfl
  | cons e b ih =>
    by_cases he : (e.1 == x) = true
    · have hex : e.1 = x := beq_iff_eq.mp he
      rw [List.filter_cons_of_pos (by rw [hex, h]; rfl)]
      rw [List.any_cons, List.any_cons, he]
      simp
    · have hnn : (e.1 == x) = false := by rw [Bool.eq_false_iff]; exact he
      by_cases hs : (!(a.any (fun p => p.1 == e.1))) = true
      · rw [List.filter_cons, if_pos hs, List.any_cons, List.any_cons, hnn]
        simp only [Bool.false_or]
        exact ih
      · rw [List.filter_cons, if_neg hs, List.any_cons, hnn]
        simp only [Bool.false_or]
        exact ih

/-- The merged map's value at every key is the left operand's list followed
by the right operand's list. -/
theorem findRM_merge (a b : ReferenceMap) (hb : WFRefMap b) (k : String) :
    findRM (mergeReferenceMaps a b) k = findRM a k ++ findRM b k := by
  rw [mergeReferenceMaps_closed b hb a]
  by_cases hk : a.any (fun p => p.1 == k) = true
  · rw [findRM_append_left _ _ _ (by rw [List.any_map]; exact hk)]
    exact findRM_map_add b k a hk
  · have hk' : a.any (fun p => p.1 == k) = false := by rw [Bool.eq_false_iff]; exact hk
    rw [findRM_append_right _ _ _ (by rw [List.any_map]; exact hk')]
    have hfa : findRM a k = [] :=
      findRM_not_mem a k (fun hm => hk ((anyKey_iff a k).mpr hm))
    rw [hfa, List.nil_append]
    exact findRM_filter_not_in a b k hk'

/-- Merging two well-formed reference maps yields a well-formed map. -/
theorem WF_merge (a b : ReferenceMap) (ha : WFRefMap a) (hb : WFRefMap b) :
    WFRefMap (mergeReferenceMaps a b) := by
  rw [mergeReferenceMaps_closed b hb a]
  unfold WFRefMap
  rw [List.map_append, List.nodup_append]
  refine ⟨?_, ?_, ?_⟩
  · rw [List.map_map]
    exact ha
  · exact hb.sublist ((List.filter_sublist _).map Prod.fst)
  · intro x hx1 hx2
    rw [List.map_map] at hx1
    rcases List.mem_map.mp hx2 with ⟨e, he, rfl⟩
    have hef := (List.mem_filter.mp he).2
    rw [Bool.not_eq_true'] at hef
    have hx1' : e.1 ∈ a.map Prod.fst := hx1
    have := (anyKey_iff a e.1).mpr hx1'
    rw [hef] at this
    cases this

/-- Merging reference maps is associative (for well-formed operands). -/
theorem mergeReferenceMaps_assoc (a b c : ReferenceMap)
    (hb : WFRefMap b) (hc : WFRefMap c) :
    mergeReferenceMaps (mergeReferenceMaps a b) c =
    mergeReferenceMaps a (mergeReferenceMaps b c) := by
  have hbc : WFRefMap (mergeReferenceMaps b c) := WF_merge b c hb hc
  rw [mergeReferenceMaps_closed c hc (mergeReferenceMaps a b),
      mergeReferenceMaps_closed (mergeReferenceMaps b c) hbc a]
  have hmap_bc : a.map (fun e => (e.1, e.2 ++ findRM (mergeReferenceMaps b c) e.1)) =
      a.map (fun e => (e.1, (e.2 ++ findRM b e.1) ++ findRM c e.1)) := by
    apply List.map_congr_left
    intro e _
    rw [findRM_merge b c hc e.1, List.append_assoc]
  rw [hmap_bc]
  rw [mergeReferenceMaps_closed b hb a]
  rw [mergeReferenceMaps_closed c hc b]
  rw [List.map_append, List.map_map, List.filter_append]
  have hcomp : a.map ((fun e => (e.1, e.2 ++ findRM c e.1)) ∘
      (fun e => (e.1, e.2 ++ findRM b e.1))) =
      a.map (fun e => (e.1, (e.2 ++ findRM b e.1) ++ findRM c e.1)) := by
    apply List.map_congr_left
    intro e _
    rfl
  rw [hcomp]
  have hfiltermap : (b.map (fun e => (e.1, e.2 ++ findRM c e.1))).filter
      (fun e => !(a.any (fun p => p.1 == e.1))) =
      (b.filter (fun e => !(a.any (fun p => p.1 == e.1)))).map
        (fun e => (e.1, e.2 ++ findRM c e.1)) := by
    rw [List.filter_map]
    rfl
  rw [hfiltermap]
  have hfiltc : c.filter (fun x =>
      !((a.map (fun e => (e.1, e.2 ++ findRM b e.1)) ++
         b.filter (fun e => !(a.any (fun p => p.1 == e.1)))).any
        (fun p => p.1 == x.1))) =
      (c.filter (fun e => !(b.any (fun p => p.1 == e.1)))).filter
        (fun e => !(a.any (fun p => p.1 == e.1))) := by
    rw [List.filter_filter]
    apply List.filter_congr
    intro x _
    rw [List.any_append]
    have hmapany : (a.map (fun e => (e.1, e.2 ++ findRM b e.1))).any
        (fun p => p.1 == x.1) = a.any (fun p => p.1 == x.1) := by
      rw [List.any_map]
      rfl
    rw [hmapany]
    by_cases ha : a.any (fun p => p.1 == x.1) = true
    · rw [ha]
      simp
    · have ha' : a.any (fun p => p.1 == x.1) = false := by
        rw [Bool.eq_false_iff]
        exact ha
      rw [ha', any_filter_key a b x.1 ha']
      simp
  rw [hfiltc]
  rw [List.append_assoc]

/-- Merging the empty map on the left is the identity (for a well-formed
operand). -/
theorem mergeReferenceMaps_nil_left (a : ReferenceMap) (ha : WFRefMap a) :
    mergeReferenceMaps [] a = a := by
  rw [mergeReferenceMaps_closed a ha []]
  simp

/-- Merging the empty map on the right is the identity. -/
theorem mergeReferenceMaps_nil_right (a : ReferenceMap) :
    mergeReferenceMaps a [] = a := rfl

/-- C6: for all (well-formed) reference maps `A` and `B` and every key `k`,
the merged map's value at `k` is `A`'s list at `k` followed by `B`'s list at
`k` (concatenation, no deduplication); the merge operation is associative
and the empty map is a two-sided identity. -/
theorem c6_merge_reference_maps (a b c : ReferenceMap)
    (ha : WFRefMap a) (hb : WFRefMap b) (hc : WFRefMap c) :
    (∀ k, findRM (mergeReferenceMaps a b) k = findRM a k ++ findRM b k) ∧
    mergeReferenceMaps (mergeReferenceMaps a b) c =
      mergeReferenceMaps a (mergeReferenceMaps b c) ∧
    mergeReferenceMaps [] a = a ∧
    mergeReferenceMaps a [] = a :=
  ⟨fun k => findRM_merge a b hb k,
   mergeReferenceMaps_assoc a b c hb hc,
   mergeReferenceMaps_nil_left a ha,
   mergeReferenceMaps_nil_right a⟩

/-- Witness for C6 at concrete maps with overlapping keys. -/
theorem c6_merge_reference_maps_witness :
    (WFRefMap [("Foo", [["p"]]), ("Bar", [["q"]])] ∧
     WFRefMap [("Foo", [["r"]])] ∧
     WFRefMap [("Baz", [["s"]]), ("Foo", [["t"]])]) ∧
    ((∀ k, findRM (mergeReferenceMaps [("Foo", [["p"]]), ("Bar", [["q"]])] [("Foo", [["r"]])]) k =
       findRM [("Foo", [["p"]]), ("Bar", [["q"]])] k ++ findRM [("Foo", [["r"]])] k) ∧
     mergeReferenceMaps (mergeReferenceMaps [("Foo", [["p"]]), ("Bar", [["q"]])] [("Foo", [["r"]])])
       [("Baz", [["s"]]), ("Foo", [["t"]])] =
       mergeReferenceMaps [("Foo", [["p"]]), ("Bar", [["q"]])]
         (mergeReferenceMaps [("Foo", [["r"]])] [("Baz", [["s"]]), ("Foo", [["t"]])]) ∧
     mergeReferenceMaps [] [("Foo", [["p"]]), ("Bar", [["q"]])] =
       [("Foo", [["p"]]), ("Bar", [["q"]])] ∧
     mergeReferenceMaps [("Foo", [["p"]]), ("Bar", [["q"]])] [] =
       [("Foo", [["p"]]), ("Bar", [["q"]])]) :=
  ⟨⟨by decide, by decide, by decide⟩,
   c6_merge_reference_maps [("Foo", [["p"]]), ("Bar", [["q"]])] [("Foo", [["r"]])]
     [("Baz", [["s"]]), ("Foo", [["t"]])] (by decide) (by decide) (by decide)⟩

/-- A mapping's child is structurally smaller than the mapping node. -/
theorem sizeOf_child_obj (fields : List (String × JsonNode))
    (kv : String × JsonNode) (h : kv ∈ fields) :
    sizeOf kv.2 < sizeOf (JsonNode.obj fields) := by
  have h1 := List.sizeOf_lt_of_mem h
  have h2 : sizeOf kv.2 < sizeOf kv := by
    cases kv with
    | mk a b => simp
  simp only [JsonNode.obj.sizeOf_spec]
  omega

/-- An array's element is structurally smaller than the array node. -/
theorem sizeOf_child_arr (xs : List JsonNode) (x : JsonNode) (h : x ∈ xs) :
    sizeOf x < sizeOf (JsonNode.arr xs) := by
  have h1 := List.sizeOf_lt_of_mem h
  simp only [JsonNode.arr.sizeOf_spec]
  omega

/-- The field loop of `walk` preserves reference-map well-formedness. -/
theorem walkFields_WF (path : List String) :
    ∀ (fields : List (String × JsonNode)) (acc : ReferenceMap),
    WFRefMap acc →
    (∀ kv ∈ fields, ∀ pp, WFRefMap (walk kv.2 pp)) →
    WFRefMap (walkFields acc fields path) := by
  intro fields
  induction fields with
  | nil =>
    intro acc hacc _
    exact hacc
  | cons kv rest ih =>
    intro acc hacc hch
    rw [walkFields]
    exact ih _ (WF_merge _ _ hacc (hch kv (List.mem_cons_self kv rest) _))
      (fun kv2 h2 => hch kv2 (List.mem_cons_of_mem kv h2))

/-- The element loop of `walk` preserves reference-map well-formedness. -/
theorem walkElems_WF (path : List String) :
    ∀ (xs : List JsonNode) (acc : ReferenceMap) (i : Nat),
    WFRefMap acc →
    (∀ x ∈ xs, ∀ pp, WFRefMap (walk x pp)) →
    WFRefMap (walkElems acc i xs path) := by
  intro xs
  induction xs with
  | nil =>
    intro acc _ hacc _
    exact hacc
  | cons x rest ih =>
    intro acc i hacc hch
    rw [walkElems]
    exact ih _ _ (WF_merge _ _ hacc (hch x (List.mem_cons_self x rest) _))
      (fun x2 h2 => hch x2 (List.mem_cons_of_mem x h2))

/-- Every reference map produced by the template walk is well-formed. -/
theorem walk_WF (t : JsonNode) : ∀ p, WFRefMap (walk t p) := by
  have H : ∀ (nn : Nat) (t : JsonNode), sizeOf t ≤ nn → ∀ p, WFRefMap (walk t p) := by
    intro nn
    induction nn with
    | zero =>
      intro t hs p
      cases t <;> simp_all
    | succ nn ih =>
      intro t hs p
      cases t with
      | str s => simp [walk, WFRefMap]
      | num m => simp [walk, WFRefMap]
      | bool b => simp [walk, WFRefMap]
      | obj fields =>
        rw [walk]
        by_cases h1 : truthyOpt (lookupProp fields "Ref") = true
        · rw [if_pos h1]
          simp [WFRefMap]
        · rw [if_neg h1]
          by_cases h2 : truthyOpt (lookupProp fields "Fn::GetAtt") = true
          · rw [if_pos h2]
            simp [WFRefMap]
          · rw [if_neg h2]
            apply walkFields_WF p fields [] (by simp [WFRefMap])
            intro kv hkv pp
            have := sizeOf_child_obj fields kv hkv
            exact ih kv.2 (by omega) pp
      | arr xs =>
        rw [walk]
        apply walkElems_WF p xs [] 0 (by simp [WFRefMap])
        intro x hx pp
        have := sizeOf_child_arr xs x hx
        exact ih x (by omega) pp
  exact fun p => H (sizeOf t) t (Nat.le_refl _) p

/-- The recording specification of the template-reference walk: within tree
`t`, at relative path `rel`, a reference to name `n` is recorded.  A mapping
with a truthy `Ref` records the (string-coerced) target at its own position;
otherwise a truthy `Fn::GetAtt` records the resource component of the pair;
otherwise the walk descends into every mapping field and array element,
appending the key (or decimal index) to the path. -/
inductive RecordsRef : JsonNode → List String → String → Prop where
  | refNode (fields : List (String × JsonNode)) (v : JsonNode)
      (hv : lookupProp fields "Ref" = some v) (ht : truthy v = true) :
      RecordsRef (.obj fields) [] (jsToString v)
  | getAttNode (fields : List (String × JsonNode)) (g : JsonNode)
      (hr : truthyOpt (lookupProp fields "Ref") = false)
      (hg : lookupProp fields "Fn::GetAtt" = some g) (ht : truthy g = true) :
      RecordsRef (.obj fields) [] (getAttKey (some g))
  | objChild (fields : List (String × JsonNode)) (k : String) (child : JsonNode)
      (rel : List String) (n : String)
      (hr : truthyOpt (lookupProp fields "Ref") = false)
      (hg : truthyOpt (lookupProp fields "Fn::GetAtt") = false)
      (hmem : (k, child) ∈ fields)
      (hrec : RecordsRef child rel n) :
      RecordsRef (.obj fields) (k :: rel) n
  | arrChild (xs : List JsonNode) (i : Nat) (x : JsonNode)
      (rel : List String) (n : String)
      (hx : xs.get? i = some x)
      (hrec : RecordsRef x rel n) :
      RecordsRef (.arr xs) (toString i :: rel) n

/-- What the field loop of `walk` collects: the accumulator's paths plus
every child walk's paths. -/
theorem walkFields_find (pre : List String) (n : String) (p : List String) :
    ∀ (fields : List (String × JsonNode)) (acc : ReferenceMap),
    WFRefMap acc →
    (∀ kv ∈ fields, ∀ pp, WFRefMap (walk kv.2 pp)) →
    (p ∈ findRM (walkFields acc fields pre) n ↔
      p ∈ findRM acc n ∨ ∃ kv ∈ fields, p ∈ findRM (walk kv.2 (pre ++ [kv.1])) n) := by
  intro fields
  induction fields with
  | nil =>
    intro acc _ _
    rw [walkFields]
    simp
  | cons kv rest ih =>
    intro acc hacc hch
    rw [walkFields]
    have hwkv : WFRefMap (walk kv.2 (pre ++ [kv.1])) :=
      hch kv (List.mem_cons_self kv rest) _
    rw [ih _ (WF_merge _ _ hacc hwkv)
      (fun kv2 h2 => hch kv2 (List.mem_cons_of_mem kv h2))]
    rw [findRM_merge _ _ hwkv n, List.mem_append]
    constructor
    · rintro ((h | h) | h)
      · exact Or.inl h
      · exact Or.inr ⟨kv, List.mem_cons_self kv rest, h⟩
      · rcases h with ⟨kv2, h2, h3⟩
        exact Or.inr ⟨kv2, List.mem_cons_of_mem kv h2, h3⟩
    · rintro (h | ⟨kv2, h2, h3⟩)
      · exact Or.inl (Or.inl h)
      · rcases List.mem_cons.mp h2 with rfl | h4
        · exact Or.inl (Or.inr h3)
        · exact Or.inr ⟨kv2, h4, h3⟩

/-- What the element loop of `walk` collects: the accumulator's paths plus
every element walk's paths (indices offset by the loop counter). -/
theorem walkElems_find (pre : List String) (n : String) (p : List String) :
    ∀ (xs : List JsonNode) (acc : ReferenceMap) (i0 : Nat),
    WFRefMap acc →
    (∀ x ∈ xs, ∀ pp, WFRefMap (walk x pp)) →
    (p ∈ findRM (walkElems acc i0 xs pre) n ↔
      p ∈ findRM acc n ∨ ∃ j x, xs.get? j = some x ∧
        p ∈ findRM (walk x (pre ++ [toString (i0 + j)])) n) := by
  intro xs
  induction xs with
  | nil =>
    intro acc _ _ _
    rw [walkElems]
    simp
  | cons x rest ih =>
    intro acc i0 hacc hch
    rw [walkElems]
    have hwx : WFRefMap (walk x (pre ++ [toString i0])) :=
      hch x (List.mem_cons_self x rest) _
    rw [ih _ _ (WF_merge _ _ hacc hwx)
      (fun x2 h2 => hch x2 (List.mem_cons_of_mem x h2))]
    rw [findRM_merge _ _ hwx n, List.mem_append]
    constructor
    · rintro ((h | h) | h)
      · exact Or.inl h
      · refine Or.inr ⟨0, x, rfl, ?_⟩
        simpa using h
      · rcases h with ⟨j, x2, h2, h3⟩
        refine Or.inr ⟨j + 1, x2, by simpa using h2, ?_⟩
        have : i0 + (j + 1) = i0 + 1 + j := by omega
        rw [this]
        exact h3
    · rintro (h | ⟨j, x2, h2, h3⟩)
      · exact Or.inl (Or.inl h)
      · cases j with
        | zero =>
          simp only [List.get?_cons_zero, Option.some.injEq] at h2
          subst h2
          apply Or.inl
          apply Or.inr
          simpa using h3
        | succ j =>
          simp only [List.get?_cons_succ] at h2
          refine Or.inr ⟨j, x2, h2, ?_⟩
          have : i0 + 1 + j = i0 + (j + 1) := by omega
          rw [this]
          exact h3

/-- No reference is ever recorded under a string leaf. -/
theorem recordsRef_str (s : String) (rel : List String) (n : String) :
    ¬ RecordsRef (.str s) rel n := by
  intro h
  cases h

/-- No reference is ever recorded under a numeric leaf. -/
theorem recordsRef_num (m : Int) (rel : List String) (n : String) :
    ¬ RecordsRef (.num m) rel n := by
  intro h
  cases h

/-- No reference is ever recorded under a boolean leaf. -/
theorem recordsRef_bool (b : Bool) (rel : List String) (n : String) :
    ¬ RecordsRef (.bool b) rel n := by
  intro h
  cases h

/-- The template-reference walk records exactly the references described by
`RecordsRef`, each at the walk's prefix extended by the node's relative
path. -/
theorem walk_records (t : JsonNode) :
    ∀ (pre : List String) (n : String) (p : List String),
    p ∈ findRM (walk t pre) n ↔ ∃ rel, p = pre ++ rel ∧ RecordsRef t rel n := by
  have H : ∀ (nn : Nat) (t : JsonNode), sizeOf t ≤ nn → ∀ pre n p,
      (p ∈ findRM (walk t pre) n ↔ ∃ rel, p = pre ++ rel ∧ RecordsRef t rel n) := by
    intro nn
    induction nn with
    | zero =>
      intro t hs
      cases t <;> simp_all
    | succ nn ih =>
      intro t hs pre n p
      cases t with
      | str s =>
        rw [walk]
        · constructor
          · intro h
            simp [findRM] at h
          · rintro ⟨rel, _, hrec⟩
            exact absurd hrec (recordsRef_str s rel n)
        · intro _ h
          exact JsonNode.noConfusion h
        · intro _ h
          exact JsonNode.noConfusion h
      | num m =>
        rw [walk]
        · constructor
          · intro h
            simp [findRM] at h
          · rintro ⟨rel, _, hrec⟩
            exact absurd hrec (recordsRef_num m rel n)
        · intro _ h
          exact JsonNode.noConfusion h
        · intro _ h
          exact JsonNode.noConfusion h
      | bool b =>
        rw [walk]
        · constructor
          · intro h
            simp [findRM] at h
          · rintro ⟨rel, _, hrec⟩
            exact absurd hrec (recordsRef_bool b rel n)
        · intro _ h
          exact JsonNode.noConfusion h
        · intro _ h
          exact JsonNode.noConfusion h
      | obj fields =>
        rw [walk]
        by_cases h1 : truthyOpt (lookupProp fields "Ref") = true
        · rw [if_pos h1]
          cases hlv : lookupProp fields "Ref" with
          | none =>
            rw [hlv] at h1
            simp [truthyOpt] at h1
          | some v =>
            have htv : truthy v = true := by rw [hlv] at h1; exact h1
            constructor
            · intro h
              rw [findRM_cons] at h
              by_cases hkey : (jsToStringOpt (some v) == n) = true
              · rw [if_pos hkey] at h
                have hn : jsToString v = n := beq_iff_eq.mp hkey
                have hp : p = pre := by simpa using h
                exact ⟨[], by rw [hp]; simp, hn ▸ RecordsRef.refNode fields v hlv htv⟩
              · rw [if_neg hkey] at h
                simp [findRM] at h
            · rintro ⟨rel, hp, hrec⟩
              cases hrec with
              | refNode _ v2 hv2 ht2 =>
                rw [hlv] at hv2
                cases hv2
                rw [hp]
                simp [findRM_cons, jsToStringOpt]
              | getAttNode _ g hr hg ht2 =>
                rw [h1] at hr
                simp at hr
              | objChild _ k child rel2 n2 hr hg hmem hrec2 =>
                rw [h1] at hr
                simp at hr
        · rw [if_neg h1]
          have h1f : truthyOpt (lookupProp fields "Ref") = false := by
            rw [Bool.eq_false_iff]
            exact h1
          by_cases h2 : truthyOpt (lookupProp fields "Fn::GetAtt") = true
          · rw [if_pos h2]
            cases hlg : lookupProp fields "Fn::GetAtt" with
            | none =>
              rw [hlg] at h2
              simp [truthyOpt] at h2
            | some g =>
              have htg : truthy g = true := by rw [hlg] at h2; exact h2
              constructor
              · intro h
                rw [findRM_cons] at h
                by_cases hkey : (getAttKey (some g) == n) = true
                · rw [if_pos hkey] at h
                  have hn : getAttKey (some g) = n := beq_iff_eq.mp hkey
                  have hp : p = pre := by simpa using h
                  exact ⟨[], by rw [hp]; simp,
                    hn ▸ RecordsRef.getAttNode fields g h1f hlg htg⟩
                · rw [if_neg hkey] at h
                  simp [findRM] at h
              · rintro ⟨rel, hp, hrec⟩
                cases hrec with
                | refNode _ v2 hv2 ht2 =>
                  rw [hv2] at h1f
                  simp only [truthyOpt] at h1f
                  rw [ht2] at h1f
                  cases h1f
                | getAttNode _ g2 hr hg2 ht2 =>
                  rw [hlg] at hg2
                  cases hg2
                  rw [hp]
                  simp [findRM_cons]
                | objChild _ k child rel2 n2 hr hg hmem hrec2 =>
                  rw [h2] at hg
                  simp at hg
          · rw [if_neg h2]
            have h2f : truthyOpt (lookupProp fields "Fn::GetAtt") = false := by
              rw [Bool.eq_false_iff]
              exact h2
            rw [walkFields_find pre n p fields [] (by simp [WFRefMap])
              (fun kv _ pp => walk_WF kv.2 pp)]
            constructor
            · rintro (h | ⟨kv, hkv, h⟩)
              · simp [findRM] at h
              · have hchild := ih kv.2 (by
                  have := sizeOf_child_obj fields kv hkv
                  omega) (pre ++ [kv.1]) n p
                rcases hchild.mp h with ⟨rel, hp, hrec⟩
                refine ⟨kv.1 :: rel, ?_, ?_⟩
                · rw [hp]
                  simp
                · exact RecordsRef.objChild fields kv.1 kv.2 rel n h1f h2f hkv hrec
            · rintro ⟨rel, hp, hrec⟩
              cases hrec with
              | refNode _ v2 hv2 ht2 =>
                rw [hv2] at h1f
                simp only [truthyOpt] at h1f
                rw [ht2] at h1f
                cases h1f
              | getAttNode _ g2 hr hg2 ht2 =>
                rw [hg2] at h2f
                simp only [truthyOpt] at h2f
                rw [ht2] at h2f
                cases h2f
              | objChild _ k child rel2 n2 hr hg hmem hrec2 =>
                refine Or.inr ⟨(k, child), hmem, ?_⟩
                have hchild := ih child (by
                  have hlt : sizeOf child < sizeOf (JsonNode.obj fields) :=
                    sizeOf_child_obj fields (k, child) hmem
                  omega) (pre ++ [k]) n p
                apply hchild.mpr
                refine ⟨rel2, ?_, hrec2⟩
                rw [hp]
                simp
      | arr xs =>
        rw [walk]
        rw [walkElems_find pre n p xs [] 0 (by simp [WFRefMap])
          (fun x _ pp => walk_WF x pp)]
        constructor
        · rintro (h | ⟨j, x, hj, h⟩)
          · simp [findRM] at h
          · have hx : x ∈ xs := List.get?_mem hj
            have hchild := ih x (by
              have := sizeOf_child_arr xs x hx
              omega) (pre ++ [toString (0 + j)]) n p
            rcases hchild.mp h with ⟨rel, hp, hrec⟩
            refine ⟨toString j :: rel, ?_, ?_⟩
            · rw [hp]
              have hz : (0 : Nat) + j = j := by omega
              rw [hz]
              simp
            · exact RecordsRef.arrChild xs j x rel n hj hrec
        · rintro ⟨rel, hp, hrec⟩
          cases hrec with
          | arrChild _ i x rel2 n2 hx hrec2 =>
            refine Or.inr ⟨i, x, hx, ?_⟩
            have hxm : x ∈ xs := List.get?_mem hx
            have hchild := ih x (by
              have := sizeOf_child_arr xs x hxm
              omega) (pre ++ [toString (0 + i)]) n p
            apply hchild.mpr
            refine ⟨rel2, ?_, hrec2⟩
            rw [hp, List.append_cons]
            have : (0 : Nat) + i = i := by omega
            rw [this]
  exact fun pre n p => H (sizeOf t) t (Nat.le_refl _) pre n p

/-- C7: the template-reference walk of `getTemplateReferences` records, for
every truthy `Ref` mapping, the referenced name at that node's structural
path, and for every truthy `Fn::GetAtt` mapping, the resource name component
at that path, descending into every mapping field and array element while
appending the key (or decimal index) to the path — stated as: a path is
filed under a name exactly when `RecordsRef` relates the template, the path
and the name; in particular, walking a tree with a `Ref` to `Foo` at
`Resources.Foo.Properties.Bar` yields exactly
`[("Foo", [["Resources", "Foo", "Properties", "Bar"]])]`. -/
theorem c7_template_reference_walk :
    (∀ (t : JsonNode) (n : String) (p : List String),
      p ∈ findRM (getTemplateReferences t) n ↔ RecordsRef t p n) ∧
    getTemplateReferences
      (.obj [("Resources", .obj [("Foo", .obj [("Properties",
        .obj [("Bar", .obj [("Ref", .str "Foo")])])])])])
      = [("Foo", [["Resources", "Foo", "Properties", "Bar"]])] := by
  constructor
  · intro t n p
    rw [getTemplateReferences, walk_records t [] n p]
    constructor
    · rintro ⟨rel, hp, hrec⟩
      simpa [hp] using hrec
    · intro h
      exact ⟨p, by simp, h⟩
  · rfl
